import Mathlib

set_option maxHeartbeats 1600000
set_option maxRecDepth 4000

/-!
Shallow embedding of mazelib (single-header C library, `mazelib.h`) in Lean 4,
together with theorems checking the natural-language specification against it.

Embedding conventions:

* C `uint64_t` arithmetic is modelled on `Nat` with an explicit `% M64`
  (`M64 = 2^64`) wherever the C computation can wrap; `uint32_t` and `uint8_t`
  casts appear as `% M32` and `% 256` at the places the C code performs them.
  Function parameters that are `uint32_t` in C are plain `Nat` here; theorems
  carry `< M32` hypotheses where the C type matters.
* Byte buffers are `List Nat`.  The C code splits one caller buffer into a
  grid region, a frontier ("cells") region and, for blockwise output, the
  final wall-grid region.  Under the validated buffer sizes these regions are
  pairwise disjoint in the C code (the frontier region of `w*h*cell_bytes`
  bytes never overlaps the `w*h` grid bytes nor the `(2w+1)*(2h+1)` output
  bytes), so the embedding keeps them as separate lists; the value returned
  for a successful generation is the content of the result region.
* Fallible behaviour returns `Option`: `none` models C undefined behaviour
  (modulo by zero, out-of-bounds buffer access) and exhaustion of the `fuel`
  parameter that bounds the otherwise unbounded rejection-sampling loop of
  `mazelib_prng_next_in_range` and the main generation loop.  `some` results
  are the defined C behaviours, including the sentinel return value 0.
* Nullable C pointers (`output`, `prng`, the selection callback) are `Option`
  parameters of `mazelib_generate_extended`; on validation failure the
  function returns the sentinel 0 together with the unchanged inputs, which
  makes the "nothing written, PRNG untouched" behaviour of the C early
  returns directly visible.
-/

def M64 : Nat := 2 ^ 64
def M32 : Nat := 2 ^ 32

/-- State of the xoshiro256++ generator: four 64-bit words. -/
structure mazelib_prng where
  s0 : Nat
  s1 : Nat
  s2 : Nat
  s3 : Nat
deriving DecidableEq, Repr

/-- Body of the seeding loop of `mazelib_prng_seed`: one splitmix64 step on the
64-bit counter `x`, returning the advanced counter and the produced word. -/
def mazelib_seed_mix (x : Nat) : Nat × Nat :=
  let x2 := (x + 0x9e3779b97f4a7c15) % M64
  let z := x2
  let z := ((z ^^^ (z >>> 30)) * 0xbf58476d1ce4e5b9) % M64
  let z := ((z ^^^ (z >>> 27)) * 0x94d049bb133111eb) % M64
  (x2, z ^^^ (z >>> 31))

/-- `mazelib_prng_seed`: runs the splitmix64 recurrence four times, storing the
four successive outputs into the state words. -/
def mazelib_prng_seed (x : Nat) : mazelib_prng :=
  let p1 := mazelib_seed_mix x
  let p2 := mazelib_seed_mix p1.1
  let p3 := mazelib_seed_mix p2.1
  let p4 := mazelib_seed_mix p3.1
  ⟨p1.2, p2.2, p3.2, p4.2⟩

/-- `mazelib_prng_rotl`: `(x << k) | (x >> (64 - k))` on `uint64_t`. -/
def mazelib_prng_rotl (x : Nat) (k : Nat) : Nat :=
  ((x <<< k) % M64) ||| (x >>> (64 - k))

/-- `mazelib_prng_next`: the xoshiro256++ step, returning the produced 64-bit
value and the advanced state. -/
def mazelib_prng_next (p : mazelib_prng) : Nat × mazelib_prng :=
  let result := (mazelib_prng_rotl ((p.s0 + p.s3) % M64) 23 + p.s0) % M64
  let t := (p.s1 <<< 17) % M64
  let s2 := p.s2 ^^^ p.s0
  let s3 := p.s3 ^^^ p.s1
  let s1 := p.s1 ^^^ s2
  let s0 := p.s0 ^^^ s3
  let s2b := s2 ^^^ t
  let s3b := mazelib_prng_rotl s3 45
  (result, ⟨s0, s1, s2b, s3b⟩)

/-- `mazelib_prng_next_in_range`: rejection sampling.  The C `do`/`while` loop
draws `x`, computes `r = x % range` and resamples while `x - r > -range`
(`uint64_t` arithmetic, so `-range` is `2^64 - range`).  `range = 0` hits
`x % 0`, undefined behaviour in C, modelled as `none`; `fuel` bounds the
number of resampling rounds. -/
def mazelib_prng_next_in_range (p : mazelib_prng) (range : Nat) : Nat → Option (Nat × mazelib_prng)
  | 0 => none
  | fuel + 1 =>
    let xp := mazelib_prng_next p
    if range = 0 then none
    else if xp.1 - xp.1 % range > M64 - range then
      mazelib_prng_next_in_range xp.2 range fuel
    else
      some (xp.1 % range, xp.2)

/-- `mazelib_get_cell_bytes_required_for_dimensions`: width of a frontier
entry in bytes, by strict comparison of `width*height` against
`UINT8_MAX`, `UINT16_MAX`, `UINT32_MAX`. -/
def mazelib_get_cell_bytes_required_for_dimensions (width height : Nat) : Nat :=
  if width * height < 255 then 1
  else if width * height < 65535 then 2
  else if width * height < 4294967295 then 4
  else 8

/-- `mazelib_get_required_buffer_size`.  The `size` accumulator is `uint64_t`,
so the multiplication by `cell_bytes` and the additions wrap modulo `2^64`. -/
def mazelib_get_required_buffer_size (width height : Nat) (blockwise : Bool) : Nat :=
  if width = 0 then 0
  else if height = 0 then 0
  else
    let cell_bytes := mazelib_get_cell_bytes_required_for_dimensions width height
    let size := (width * height * cell_bytes) % M64
    if blockwise then
      (size + ((2 * width + 1) * (2 * height + 1)) % M64) % M64
    else
      (size + size / cell_bytes) % M64

/-- `mazelib_get_cell_index`: column-major linearization `x*height + y`.
The C arguments are `uint32_t`, so the `uint64_t` product and sum cannot
wrap; call sites below apply the `% M32` casts the C call sites perform. -/
def mazelib_get_cell_index (x y height : Nat) : Nat :=
  x * height + y

/-- The direction bit constants `west, east, north, south` in the order the
`directions` array is initialized. -/
def mazelib_initial_directions : List Nat := [1, 2, 4, 8]

/-- The three-line array swap in the Fisher-Yates shuffle:
`temp = l[i]; l[i] = l[j]; l[j] = temp`. -/
def listSwap (l : List Nat) (i j : Nat) : List Nat :=
  (l.set i (l.getD j 0)).set j (l.getD i 0)

/-- The direction shuffle: for `i = 3, 2, 1`, swap `directions[i]` with
`directions[swap_index]` where `swap_index` is drawn in `[0, i+1)` (and cast
to `uint8_t`). -/
def mazelib_shuffle_directions (p : mazelib_prng) (fuel : Nat) :
    Option (List Nat × mazelib_prng) :=
  match mazelib_prng_next_in_range p 4 fuel with
  | none => none
  | some (r3, p3) =>
    let l3 := listSwap mazelib_initial_directions 3 (r3 % 256)
    match mazelib_prng_next_in_range p3 3 fuel with
    | none => none
    | some (r2, p2) =>
      let l2 := listSwap l3 2 (r2 % 256)
      match mazelib_prng_next_in_range p2 2 fuel with
      | none => none
      | some (r1, p1) =>
        some (listSwap l2 1 (r1 % 256), p1)

/-- Bounds-checked byte store; an out-of-bounds store is a C buffer overflow,
modelled as `none`. -/
def listSetChecked (l : List Nat) (i v : Nat) : Option (List Nat) :=
  if i < l.length then some (l.set i v) else none

/-- The direction scan of the main loop: try the shuffled directions in order;
skip a direction whose neighbor is outside the grid (the C boundary tests) or
already visited (`grid[new_cell_index] != 0`); return the first carvable
`(direction, opposite_direction, new_cell_index)`.  The C `switch` treats any
value other than west/east/north as south. -/
def mazelib_find_neighbor (width height : Nat) (grid : List Nat) (x y : Nat) :
    List Nat → Option (Nat × Nat × Nat)
  | [] => none
  | d :: rest =>
    let attempt : Option (Nat × Nat × Nat) :=
      if d = 1 then
        if x = 0 then none else some (x - 1, y, 2)
      else if d = 2 then
        if x = width - 1 then none else some (x + 1, y, 1)
      else if d = 4 then
        if y = 0 then none else some (x, y - 1, 8)
      else
        if y = height - 1 then none else some (x, y + 1, 4)
    match attempt with
    | none => mazelib_find_neighbor width height grid x y rest
    | some (nx, ny, opp) =>
      let new_cell_index := mazelib_get_cell_index nx ny height
      if grid.getD new_cell_index 0 ≠ 0 then
        mazelib_find_neighbor width height grid x y rest
      else
        some (d, opp, new_cell_index)

/-- Result of one iteration of the `while (cells_size)` loop. -/
inductive StepOut where
  | cont (grid : List Nat) (cells : List Nat) (prng : mazelib_prng)
  | abort (prng : mazelib_prng)
deriving Repr

/-- The cell selection callback of the low level API: receives the frontier
length and the PRNG, returns the chosen index and the advanced PRNG (`none`
models failure of an internal fallible operation). -/
abbrev mazelib_cell_selection_callback := Nat → mazelib_prng → Option (Nat × mazelib_prng)

/-- One iteration of the main loop of `mazelib_generate_extended`: select a
frontier index (through the callback when more than one entry is present,
aborting on a contract violation), decode the current cell, shuffle the
directions, then carve to the first unvisited neighbor or, failing that,
remove the selected entry (the C `memmove` compaction). -/
def mazelib_step (width height cell_bytes : Nat) (cb : mazelib_cell_selection_callback)
    (grid cells : List Nat) (prng : mazelib_prng) (fuel : Nat) : Option StepOut :=
  let sel : Option (Nat × mazelib_prng) :=
    if cells.length > 1 then cb cells.length prng else some (0, prng)
  match sel with
  | none => none
  | some (cell_index, prng1) =>
    if cell_index ≥ cells.length then some (.abort prng1)
    else
      let current_cell := cells.getD cell_index 0
      let x := (current_cell / height) % M32
      let y := (current_cell % height) % M32
      match mazelib_shuffle_directions prng1 fuel with
      | none => none
      | some (dirs, prng2) =>
        match mazelib_find_neighbor width height grid x y dirs with
        | some (d, opp, new_cell_index) =>
          match listSetChecked grid current_cell (grid.getD current_cell 0 ||| d) with
          | none => none
          | some g1 =>
            match listSetChecked g1 new_cell_index (g1.getD new_cell_index 0 ||| opp) with
            | none => none
            | some g2 =>
              some (.cont g2 (cells ++ [new_cell_index % 256 ^ cell_bytes]) prng2)
        | none => some (.cont grid (cells.eraseIdx cell_index) prng2)

/-- Result of the whole `while (cells_size)` loop. -/
inductive LoopOut where
  | done (grid : List Nat) (prng : mazelib_prng)
  | aborted (prng : mazelib_prng)
deriving Repr

/-- The `while (cells_size)` loop, with `fuel` bounding the iteration count. -/
def mazelib_loop (width height cell_bytes : Nat) (cb : mazelib_cell_selection_callback) :
    Nat → List Nat → List Nat → mazelib_prng → Option LoopOut
  | 0, _, _, _ => none
  | fuel + 1, grid, cells, prng =>
    if cells.length = 0 then some (.done grid prng)
    else
      match mazelib_step width height cell_bytes cb grid cells prng (fuel + 1) with
      | none => none
      | some (.abort p) => some (.aborted p)
      | some (.cont g c p) => mazelib_loop width height cell_bytes cb fuel g c p

/-- The initial fill of the blockwise pass: `output[i] = 1` for all
`i < n`. -/
def mazelib_fill_walls (out : List Nat) : Nat → Option (List Nat)
  | 0 => some out
  | n + 1 =>
    match listSetChecked out n 1 with
    | none => none
    | some o => mazelib_fill_walls o n

/-- Body of the blockwise double loop for one original cell `(old_x, old_y)`:
open the interior cell at `(2x+1, 2y+1)` and, when the south / east bits are
set, the wall cell below / to the right of it.  `new_x`, `new_y` are
`uint32_t` in C and `mazelib_get_cell_index` takes `uint32_t` arguments, so
the casts appear as `% M32`. -/
def mazelib_expand_cell (height : Nat) (grid out : List Nat) (old_x old_y : Nat) :
    Option (List Nat) :=
  let new_x := (2 * old_x + 1) % M32
  let new_y := (2 * old_y + 1) % M32
  let new_height := 2 * height + 1
  let old_cell_index := mazelib_get_cell_index old_x old_y height
  match listSetChecked out (mazelib_get_cell_index new_x new_y (new_height % M32)) 0 with
  | none => none
  | some out1 =>
    match (if grid.getD old_cell_index 0 &&& 8 ≠ 0 then
             listSetChecked out1
               (mazelib_get_cell_index new_x ((new_y + 1) % M32) (new_height % M32)) 0
           else some out1) with
    | none => none
    | some out2 =>
      if grid.getD old_cell_index 0 &&& 2 ≠ 0 then
        listSetChecked out2
          (mazelib_get_cell_index ((new_x + 1) % M32) new_y (new_height % M32)) 0
      else some out2

/-- Inner (`old_y`) loop of the blockwise pass: `k` cells starting at
`old_y`. -/
def mazelib_expand_col (height : Nat) (grid : List Nat) (old_x : Nat) :
    List Nat → Nat → Nat → Option (List Nat)
  | out, _, 0 => some out
  | out, old_y, k + 1 =>
    match mazelib_expand_cell height grid out old_x old_y with
    | none => none
    | some o => mazelib_expand_col height grid old_x o (old_y + 1) k

/-- Outer (`old_x`) loop of the blockwise pass: `k` columns starting at
`old_x`. -/
def mazelib_expand_all (height : Nat) (grid : List Nat) :
    List Nat → Nat → Nat → Option (List Nat)
  | out, _, 0 => some out
  | out, old_x, k + 1 =>
    match mazelib_expand_col height grid old_x out 0 height with
    | none => none
    | some o => mazelib_expand_all height grid o (old_x + 1) k

/-- The blockwise post-pass: fill the `(2w+1)*(2h+1)` output cells with walls
(the product is `uint64_t`, hence `% M64`), then open cells and passages from
the compact grid.  Returns the new result byte count and the wall grid. -/
def mazelib_blockwise_expand (width height : Nat) (grid out : List Nat) :
    Option (Nat × List Nat) :=
  let result := ((2 * width + 1) * (2 * height + 1)) % M64
  match mazelib_fill_walls out result with
  | none => none
  | some out1 =>
    match mazelib_expand_all height grid out1 0 width with
    | none => none
    | some out2 => some (result, out2)

/-- `mazelib_generate_extended`.  Nullable pointer parameters are `Option`;
the result is `(return value, final PRNG, result bytes)` where for a
successful compact generation the result bytes are the `width*height` grid
region and for a successful blockwise generation the full output buffer
(whose first `(2w+1)*(2h+1)` bytes are the wall grid).  On a validation
failure the unchanged inputs are returned alongside the sentinel 0. -/
def mazelib_generate_extended (width height : Nat) (prngOpt : Option mazelib_prng)
    (cbOpt : Option mazelib_cell_selection_callback) (blockwise : Bool)
    (outOpt : Option (List Nat)) (fuel : Nat) :
    Option (Nat × Option mazelib_prng × Option (List Nat)) :=
  let required_size := mazelib_get_required_buffer_size width height blockwise
  let cell_bytes := mazelib_get_cell_bytes_required_for_dimensions width height
  match outOpt with
  | none => some (0, prngOpt, outOpt)
  | some out =>
    if out.length < required_size then some (0, prngOpt, outOpt)
    else
      match prngOpt with
      | none => some (0, prngOpt, outOpt)
      | some prng =>
        match cbOpt with
        | none => some (0, prngOpt, outOpt)
        | some cb =>
          let grid0 : List Nat := List.replicate (width * height) 0
          match mazelib_prng_next_in_range prng width fuel with
          | none => none
          | some (rx, prngA) =>
            match mazelib_prng_next_in_range prngA height fuel with
            | none => none
            | some (ry, prngB) =>
              let temp := mazelib_get_cell_index (rx % M32) (ry % M32) height
              let cells0 : List Nat := [temp % 256 ^ cell_bytes]
              match mazelib_loop width height cell_bytes cb fuel grid0 cells0 prngB with
              | none => none
              | some (.aborted p) => some (0, some p, some out)
              | some (.done grid p) =>
                if blockwise then
                  match mazelib_blockwise_expand width height grid out with
                  | none => none
                  | some (res, out2) => some (res, some p, some out2)
                else
                  some (width * height, some p, some grid)

/-- The C cast `(int8_t)` of an unsigned value: two's complement on the low
byte. -/
def mazelib_to_int8 (u : Nat) : Int :=
  if u % 256 < 128 then ((u % 256 : Nat) : Int) else ((u % 256 : Nat) : Int) - 256

/-- `mazelib_high_level_cell_selection_callback`: when the stored threshold is
positive and a fresh draw in `[0, 101)` (cast to `int8_t`) is below it,
delegate to a uniform draw in `[0, count)`; otherwise return `count - 1`.
The C `&&` short-circuits, so a non-positive threshold performs no draw. -/
def mazelib_high_level_cell_selection_callback (random_threshold_percent : Int)
    (fuel : Nat) : mazelib_cell_selection_callback := fun count prng =>
  if random_threshold_percent > 0 then
    match mazelib_prng_next_in_range prng 101 fuel with
    | none => none
    | some (u, prng2) =>
      if mazelib_to_int8 u < random_threshold_percent then
        mazelib_prng_next_in_range prng2 count fuel
      else
        some (count - 1, prng2)
  else
    some (count - 1, prng)

/-- Forgets the PRNG component of a `mazelib_generate_extended` result; the
high level API owns its PRNG internally. -/
def mazelib_drop_prng :
    Option (Nat × Option mazelib_prng × Option (List Nat)) →
    Option (Nat × Option (List Nat))
  | none => none
  | some (r, _, o) => some (r, o)

/-- `mazelib_generate`: seed an internal PRNG, randomize a negative threshold
(uniform in `[0, 101)`, cast to `int8_t`), clamp a threshold above 100 to
100, and run `mazelib_generate_extended` with the default selection
callback. -/
def mazelib_generate (width height : Nat) (random_seed : Nat)
    (random_threshold_percent : Int) (blockwise : Bool) (outOpt : Option (List Nat))
    (fuel : Nat) : Option (Nat × Option (List Nat)) :=
  let prng := mazelib_prng_seed random_seed
  if random_threshold_percent < 0 then
    match mazelib_prng_next_in_range prng 101 fuel with
    | none => none
    | some (t, prng2) =>
      mazelib_drop_prng (mazelib_generate_extended width height (some prng2)
        (some (mazelib_high_level_cell_selection_callback (mazelib_to_int8 t) fuel))
        blockwise outOpt fuel)
  else
    let rtp := if random_threshold_percent > 100 then 100 else random_threshold_percent
    mazelib_drop_prng (mazelib_generate_extended width height (some prng)
      (some (mazelib_high_level_cell_selection_callback rtp fuel))
      blockwise outOpt fuel)

/-! Definitions used to state the claims: reading a compact grid as an
undirected graph over the `width*height` cells. -/

/-- Geometric adjacency of two cell indices in a `width × height` grid under
the linearization `index = x*height + y`. -/
def mazelib_adjacent (width height : Nat) (a b : Nat) : Prop :=
  ∃ x y, x < width ∧ y < height ∧ a = x * height + y ∧
    ((x + 1 < width ∧ b = (x + 1) * height + y) ∨
     (1 ≤ x ∧ b = (x - 1) * height + y) ∨
     (y + 1 < height ∧ b = x * height + (y + 1)) ∨
     (1 ≤ y ∧ b = x * height + (y - 1)))

/-- One step along a carved passage: `b` is the neighbor of `a` in a direction
whose bit is set in `a`'s grid byte (west 1, east 2, north 4, south 8). -/
def mazelib_open_step (width height : Nat) (g : List Nat) (a b : Nat) : Prop :=
  ∃ x y, x < width ∧ y < height ∧ a = x * height + y ∧
    ((x + 1 < width ∧ b = (x + 1) * height + y ∧ g.getD a 0 &&& 2 ≠ 0) ∨
     (1 ≤ x ∧ b = (x - 1) * height + y ∧ g.getD a 0 &&& 1 ≠ 0) ∨
     (y + 1 < height ∧ b = x * height + (y + 1) ∧ g.getD a 0 &&& 8 ≠ 0) ∨
     (1 ≤ y ∧ b = x * height + (y - 1) ∧ g.getD a 0 &&& 4 ≠ 0))

/-- Bit-symmetry of a compact grid: a cell has the bit towards an adjacent
neighbor iff the neighbor has the bit of the opposite direction back. -/
def mazelib_grid_symm (width height : Nat) (g : List Nat) : Prop :=
  ∀ x y, x < width → y < height →
    ((x + 1 < width →
        (g.getD (x * height + y) 0 &&& 2 ≠ 0 ↔ g.getD ((x + 1) * height + y) 0 &&& 1 ≠ 0)) ∧
     (y + 1 < height →
        (g.getD (x * height + y) 0 &&& 8 ≠ 0 ↔ g.getD (x * height + (y + 1)) 0 &&& 4 ≠ 0)))

/-- No direction bit points off the edge of the grid. -/
def mazelib_no_border_bits (width height : Nat) (g : List Nat) : Prop :=
  ∀ x y, x < width → y < height →
    (x = 0 → g.getD (x * height + y) 0 &&& 1 = 0) ∧
    (x = width - 1 → g.getD (x * height + y) 0 &&& 2 = 0) ∧
    (y = 0 → g.getD (x * height + y) 0 &&& 4 = 0) ∧
    (y = height - 1 → g.getD (x * height + y) 0 &&& 8 = 0)

/-- Number of undirected edges of a compact grid, counting every edge once at
its west/north endpoint (its east/south bit); under `mazelib_grid_symm` and
`mazelib_no_border_bits` this is exactly the number of carved passages. -/
def mazelib_edge_count (width height : Nat) (g : List Nat) : Nat :=
  Finset.sum (Finset.range (width * height))
    (fun c => (if g.getD c 0 &&& 2 ≠ 0 then 1 else 0) + (if g.getD c 0 &&& 8 ≠ 0 then 1 else 0))

/-- Connectivity of a compact grid: every cell reaches every cell through
carved passages. -/
def mazelib_grid_connected (width height : Nat) (g : List Nat) : Prop :=
  ∀ a b, a < width * height → b < width * height →
    Relation.ReflTransGen (mazelib_open_step width height g) a b

/-! Specification-side definitions (following the wording of the spec), used
for the refinement statements about the PRNG and the default selection
strategy. -/

/-- True 64-bit left rotation, written arithmetically: the low bits move up by
`k` binary places and the high `k` bits wrap to the bottom. -/
def spec_rotate_left (x k : Nat) : Nat :=
  (x * 2 ^ k + x / 2 ^ (64 - k)) % M64

/-- The splitmix64 seeding recurrence exactly as the spec states it:
`x += 0x9e3779b97f4a7c15; z = x; z = (z ^ (z>>30)) * 0xbf58476d1ce4e5b9;
z = (z ^ (z>>27)) * 0x94d049bb133111eb; z = z ^ (z>>31)`. -/
def spec_splitmix64 (x : Nat) : Nat × Nat :=
  let x2 := (x + 0x9e3779b97f4a7c15) % M64
  let z1 := x2
  let z2 := ((z1 ^^^ (z1 >>> 30)) * 0xbf58476d1ce4e5b9) % M64
  let z3 := ((z2 ^^^ (z2 >>> 27)) * 0x94d049bb133111eb) % M64
  (x2, z3 ^^^ (z3 >>> 31))

/-- Seed expansion per the spec: iterate the mixing recurrence four times,
storing the successive `z` values into the four state words. -/
def spec_prng_seed (x : Nat) : mazelib_prng :=
  let s1 := spec_splitmix64 x
  let s2 := spec_splitmix64 s1.1
  let s3 := spec_splitmix64 s2.1
  let s4 := spec_splitmix64 s3.1
  ⟨s1.2, s2.2, s3.2, s4.2⟩

/-- The xoshiro256++ step per the spec: `result = rotate_left(s0+s3, 23) + s0`
followed by the state update
`t = s1<<17; s2^=s0; s3^=s1; s1^=s2; s0^=s3; s2^=t; s3 = rotate_left(s3,45)`,
with all arithmetic modulo `2^64` and rotation in its arithmetic form. -/
def spec_prng_next (p : mazelib_prng) : Nat × mazelib_prng :=
  let result := (spec_rotate_left ((p.s0 + p.s3) % M64) 23 + p.s0) % M64
  let t := (p.s1 * 2 ^ 17) % M64
  let s2 := p.s2 ^^^ p.s0
  let s3 := p.s3 ^^^ p.s1
  let s1 := p.s1 ^^^ s2
  let s0 := p.s0 ^^^ s3
  let s2b := s2 ^^^ t
  let s3b := spec_rotate_left s3 45
  (result, ⟨s0, s1, s2b, s3b⟩)

/-- The PRNG state after `k` applications of `next`. -/
def spec_next_iter (p : mazelib_prng) : Nat → mazelib_prng
  | 0 => p
  | k + 1 => (mazelib_prng_next (spec_next_iter p k)).2

/-- The `k`-th raw 64-bit draw from state `p` (0-indexed). -/
def spec_draw (p : mazelib_prng) (k : Nat) : Nat :=
  (mazelib_prng_next (spec_next_iter p k)).1

/-- The spec's rejection condition for `next_in_range`: with `r = x mod range`,
the draw `x` is rejected when `x - r` exceeds `2^64 - range`. -/
def spec_rejects (range x : Nat) : Prop :=
  x - x % range > M64 - range

/-- The specification reading of the claim that threshold 100 "always
delegates to uniform random choice": after the per-step threshold draw, the
selection is a fresh uniform draw in `[0, count)`. -/
def spec_threshold100_selection (fuel count : Nat) (p : mazelib_prng) :
    Option (Nat × mazelib_prng) :=
  match mazelib_prng_next_in_range p 101 fuel with
  | none => none
  | some (_, p2) => mazelib_prng_next_in_range p2 count fuel

/-! Invariant of the growing-tree loop, used to prove the spanning-tree
claims. -/

/-- A cell is visited once its grid byte is nonzero. -/
def mazelib_visited (g : List Nat) (c : Nat) : Prop := g.getD c 0 ≠ 0

/-- The set of visited cells. -/
def visitedSet (width height : Nat) (g : List Nat) : Finset Nat :=
  (Finset.range (width * height)).filter (fun c => g.getD c 0 ≠ 0)

/-- Loop state before the first passage is carved: the grid is still all
zero and the frontier holds the single start cell, or (only in the degenerate
1×1 maze) has already emptied. -/
def mazelib_phaseA (width height : Nat) (grid cells : List Nat) : Prop :=
  grid = List.replicate (width * height) 0 ∧
    ((∃ c0, c0 < width * height ∧ cells = [c0]) ∨
      (cells = [] ∧ width = 1 ∧ height = 1))

/-- Loop state once at least one passage exists: the frontier is a list of
visited in-range cells, every visited cell no longer on the frontier has all
its neighbors visited, the carved bits are symmetric and never point off the
grid, and the carved subgraph is a tree on the visited cells (connected, with
one edge less than vertices). -/
structure mazelib_phaseB (width height : Nat) (grid cells : List Nat) : Prop where
  size_eq : grid.length = width * height
  cells_lt : ∀ c ∈ cells, c < width * height
  cells_visited : ∀ c ∈ cells, mazelib_visited grid c
  closure : ∀ c, c < width * height → mazelib_visited grid c → c ∉ cells →
    ∀ b, mazelib_adjacent width height c b → mazelib_visited grid b
  symm : mazelib_grid_symm width height grid
  noborder : mazelib_no_border_bits width height grid
  visited_nonempty : ∃ c, c < width * height ∧ mazelib_visited grid c
  conn : ∀ a b, a < width * height → b < width * height →
    mazelib_visited grid a → mazelib_visited grid b →
    Relation.ReflTransGen (mazelib_open_step width height grid) a b
  count : mazelib_edge_count width height grid + 1 = (visitedSet width height grid).card

/-- The loop invariant. -/
def mazelib_inv (width height : Nat) (grid cells : List Nat) : Prop :=
  mazelib_phaseA width height grid cells ∨ mazelib_phaseB width height grid cells

/-- The four possible geometric configurations of a carved passage: the
direction bit `d` carved from `(x, y)`, its opposite `opp`, and the
linearized neighbor index `nidx`. -/
def mazelib_carve_case (w h x y d opp nidx : Nat) : Prop :=
  (d = 1 ∧ opp = 2 ∧ x ≠ 0 ∧ nidx = (x - 1) * h + y) ∨
  (d = 2 ∧ opp = 1 ∧ x ≠ w - 1 ∧ nidx = (x + 1) * h + y) ∨
  (d = 4 ∧ opp = 8 ∧ y ≠ 0 ∧ nidx = x * h + (y - 1)) ∨
  (d = 8 ∧ opp = 4 ∧ y ≠ h - 1 ∧ nidx = x * h + (y + 1))

/-- The set of flat wall-grid indices the blockwise pass opens for the
original cell `(x, y)`: its interior cell `(2x+1, 2y+1)` always, the cell
below it when the south bit is set, and the cell to its right when the east
bit is set (stride `2*height+1`). -/
def expandWrites (h : Nat) (grid : List Nat) (x y j : Nat) : Prop :=
  j = (2 * x + 1) * (2 * h + 1) + (2 * y + 1) ∨
  (grid.getD (x * h + y) 0 &&& 8 ≠ 0 ∧ j = (2 * x + 1) * (2 * h + 1) + (2 * y + 2)) ∨
  (grid.getD (x * h + y) 0 &&& 2 ≠ 0 ∧ j = (2 * x + 2) * (2 * h + 1) + (2 * y + 1))

/-! Basic lemmas about the PRNG. -/

/-- A value produced by `mazelib_prng_next_in_range` is below `range`. -/
theorem mazelib_nir_lt {fuel : Nat} :
    ∀ {p : mazelib_prng} {range r : Nat} {p2 : mazelib_prng},
      mazelib_prng_next_in_range p range fuel = some (r, p2) → r < range := by
  induction fuel with
  | zero =>
    intro p range r p2 h
    simp [mazelib_prng_next_in_range] at h
  | succ n ih =>
    intro p range r p2 h
    unfold mazelib_prng_next_in_range at h
    by_cases h0 : range = 0
    · simp [h0] at h
    · simp only [h0, if_false] at h
      split at h
      · exact ih h
      · obtain ⟨hr, _⟩ := Prod.mk.injEq .. ▸ Option.some.injEq .. ▸ h
        exact hr ▸ Nat.mod_lt _ (Nat.pos_of_ne_zero h0)

/-- Unfolding equation for a successful rejection-sampling round. -/
theorem mazelib_nir_succ (p : mazelib_prng) (range fuel : Nat) (h0 : range ≠ 0) :
    mazelib_prng_next_in_range p range (fuel + 1) =
      (if (mazelib_prng_next p).1 - (mazelib_prng_next p).1 % range > M64 - range then
        mazelib_prng_next_in_range (mazelib_prng_next p).2 range fuel
      else some ((mazelib_prng_next p).1 % range, (mazelib_prng_next p).2)) := by
  conv_lhs => rw [mazelib_prng_next_in_range]
  simp [h0]

/-! Claim C5: choice of the frontier cell index width. -/

/-- C5: the cell index width is chosen by strict less-than comparison of
`width*height` against 255, 65535 and 4294967295 — 1 byte iff the cell count
is below 255, 2 bytes iff it is in [255, 65535), 4 bytes iff it is in
[65535, 4294967295), 8 bytes otherwise; in particular a grid of exactly 255
cells uses 2-byte indices. -/
theorem C5_cell_index_width (w h : Nat) :
    (mazelib_get_cell_bytes_required_for_dimensions w h = 1 ↔ w * h < 255) ∧
    (mazelib_get_cell_bytes_required_for_dimensions w h = 2 ↔
      255 ≤ w * h ∧ w * h < 65535) ∧
    (mazelib_get_cell_bytes_required_for_dimensions w h = 4 ↔
      65535 ≤ w * h ∧ w * h < 4294967295) ∧
    (mazelib_get_cell_bytes_required_for_dimensions w h = 8 ↔ 4294967295 ≤ w * h) ∧
    (w * h = 255 → mazelib_get_cell_bytes_required_for_dimensions w h = 2) := by
  unfold mazelib_get_cell_bytes_required_for_dimensions
  split_ifs <;> omega

/-- Witness for C5 at the highlighted boundary: a 255-cell grid (255 × 1)
selects 2-byte frontier indices. -/
theorem C5_cell_index_width_witness :
    mazelib_get_cell_bytes_required_for_dimensions 255 1 = 2 :=
  (C5_cell_index_width 255 1).2.2.2.2 (by decide)

/-! Claim C2: the required buffer size formulas.  The C `size` accumulator is
`uint64_t`, so for extreme dimensions the multiplication by `cell_bytes`
wraps modulo `2^64` and the claimed exact formulas fail; they hold whenever
the formula value fits in 64 bits. -/

/-- The cell index width is positive. -/
theorem mazelib_cell_bytes_pos (w h : Nat) :
    0 < mazelib_get_cell_bytes_required_for_dimensions w h := by
  unfold mazelib_get_cell_bytes_required_for_dimensions
  split_ifs <;> norm_num

/-- Counterexample to C2 as stated: at width = height = 4294967295 (legal
`uint32_t` arguments) the compact-format formula `w*h*(1+b)` exceeds `2^64`
and the function returns the wrapped value instead. -/
theorem C2_counterexample :
    mazelib_get_required_buffer_size 4294967295 4294967295 false ≠
      4294967295 * 4294967295 *
        (1 + mazelib_get_cell_bytes_required_for_dimensions 4294967295 4294967295) ∧
    mazelib_get_required_buffer_size 4294967295 4294967295 false
      = 2305842931904282633 := by
  constructor
  · decide
  · decide

/-- C2 (amended): `mazelib_get_required_buffer_size` returns 0 when a
dimension is 0; otherwise, with `b` the cell index width, it returns
`w*h*(1+b)` for the compact format and `w*h*b + (2w+1)*(2h+1)` for the
blockwise format, provided that value fits in 64 bits (the C accumulator is
`uint64_t` and wraps otherwise). -/
theorem C2_required_buffer_size :
    (∀ h bw, mazelib_get_required_buffer_size 0 h bw = 0) ∧
    (∀ w bw, mazelib_get_required_buffer_size w 0 bw = 0) ∧
    (∀ w h, 1 ≤ w → 1 ≤ h →
      w * h * (1 + mazelib_get_cell_bytes_required_for_dimensions w h) < M64 →
      mazelib_get_required_buffer_size w h false =
        w * h * (1 + mazelib_get_cell_bytes_required_for_dimensions w h)) ∧
    (∀ w h, 1 ≤ w → 1 ≤ h →
      w * h * mazelib_get_cell_bytes_required_for_dimensions w h +
          (2 * w + 1) * (2 * h + 1) < M64 →
      mazelib_get_required_buffer_size w h true =
        w * h * mazelib_get_cell_bytes_required_for_dimensions w h +
          (2 * w + 1) * (2 * h + 1)) := by
  refine ⟨?_, ?_, ?_, ?_⟩
  · intro h bw; simp [mazelib_get_required_buffer_size]
  · intro w bw
    unfold mazelib_get_required_buffer_size
    by_cases hw : w = 0
    · simp [hw]
    · simp [hw]
  · intro w h hw hh hfit
    set b := mazelib_get_cell_bytes_required_for_dimensions w h with hb
    have hbpos : 0 < b := mazelib_cell_bytes_pos w h
    have hsz : w * h * b < M64 := by nlinarith
    unfold mazelib_get_required_buffer_size
    rw [if_neg (by omega), if_neg (by omega)]
    simp only [Bool.false_eq_true, if_false, ← hb]
    rw [Nat.mod_eq_of_lt hsz, Nat.mul_div_cancel _ hbpos, Nat.mod_eq_of_lt (by nlinarith)]
    ring
  · intro w h hw hh hfit
    set b := mazelib_get_cell_bytes_required_for_dimensions w h with hb
    have hsz : w * h * b < M64 :=
      Nat.lt_of_le_of_lt (Nat.le_add_right _ _) hfit
    have hbl : (2 * w + 1) * (2 * h + 1) < M64 :=
      Nat.lt_of_le_of_lt (Nat.le_add_left _ _) hfit
    unfold mazelib_get_required_buffer_size
    rw [if_neg (by omega), if_neg (by omega)]
    simp only [if_true, ← hb]
    rw [Nat.mod_eq_of_lt hsz, Nat.mod_eq_of_lt hbl, Nat.mod_eq_of_lt hfit]

/-- Witness for the amended C2 at width 3, height 4: compact needs
`12*(1+1) = 24` bytes, blockwise `12*1 + 7*9 = 75` bytes. -/
theorem C2_required_buffer_size_witness :
    mazelib_get_required_buffer_size 3 4 false = 24 ∧
    mazelib_get_required_buffer_size 3 4 true = 75 := by
  constructor
  · have h := C2_required_buffer_size.2.2.1 3 4 (by decide) (by decide) (by decide)
    simpa using h
  · have h := C2_required_buffer_size.2.2.2 3 4 (by decide) (by decide) (by decide)
    simpa using h

/-! Claim C4: the PRNG is bit-exactly the stated splitmix64 seeding,
xoshiro256++ step, and unbiased rejection sampling. -/

/-- `M64` is positive. -/
theorem M64_pos : 0 < M64 := by unfold M64; positivity

/-- The C rotation `(x << k) | (x >> (64 - k))` on a 64-bit value agrees with
the arithmetic form of a true `k`-bit left rotation. -/
theorem mazelib_rotl_eq_spec (x k : Nat) (hx : x < M64) (hk0 : 0 < k) (hk : k < 64) :
    mazelib_prng_rotl x k = spec_rotate_left x k := by
  unfold mazelib_prng_rotl spec_rotate_left
  have hsplit : (2 : Nat) ^ (64 - k) * 2 ^ k = M64 := by
    rw [← pow_add]
    unfold M64
    congr 1
    omega
  have hxm : x % 2 ^ (64 - k) < 2 ^ (64 - k) := Nat.mod_lt _ (by positivity)
  have hd : x / 2 ^ (64 - k) < 2 ^ k := by
    apply Nat.div_lt_of_lt_mul
    rw [hsplit]
    exact hx
  have hdM : x / 2 ^ (64 - k) < M64 := by
    refine lt_of_lt_of_le hd ?_
    rw [← hsplit]
    exact Nat.le_mul_of_pos_left _ (by positivity)
  have hmod : x * 2 ^ k % M64 = x % 2 ^ (64 - k) * 2 ^ k := by
    rw [← hsplit]
    exact Nat.mul_mod_mul_right (2 ^ k) x (2 ^ (64 - k))
  have hsum : 2 ^ k * (x % 2 ^ (64 - k)) + x / 2 ^ (64 - k) < M64 := by
    have h2 : 2 ^ k * (x % 2 ^ (64 - k)) + 2 ^ k = 2 ^ k * (x % 2 ^ (64 - k) + 1) := by ring
    have h3 : 2 ^ k * (x % 2 ^ (64 - k) + 1) ≤ 2 ^ k * 2 ^ (64 - k) :=
      Nat.mul_le_mul_left _ (by omega)
    have h4 : (2 : Nat) ^ k * 2 ^ (64 - k) = M64 := by rw [mul_comm]; exact hsplit
    omega
  rw [Nat.shiftLeft_eq, Nat.shiftRight_eq_div_pow, hmod,
    mul_comm (x % 2 ^ (64 - k)) (2 ^ k), ← Nat.mul_add_lt_is_or hd,
    Nat.add_mod, hmod, Nat.mod_eq_of_lt hdM,
    mul_comm (x % 2 ^ (64 - k)) (2 ^ k), Nat.mod_eq_of_lt hsum]

/-- The implemented xoshiro256++ step agrees with the spec's recurrence on
any genuine 64-bit state. -/
theorem mazelib_next_eq_spec (p : mazelib_prng) (h0 : p.s0 < M64) (h1 : p.s1 < M64)
    (h2 : p.s2 < M64) (h3 : p.s3 < M64) :
    mazelib_prng_next p = spec_prng_next p := by
  have ha : (p.s0 + p.s3) % M64 < M64 := Nat.mod_lt _ M64_pos
  have hs3 : p.s3 ^^^ p.s1 < M64 := Nat.xor_lt_two_pow h3 h1
  simp only [mazelib_prng_next, spec_prng_next, Nat.shiftLeft_eq]
  rw [mazelib_rotl_eq_spec ((p.s0 + p.s3) % M64) 23 ha (by norm_num) (by norm_num),
    mazelib_rotl_eq_spec (p.s3 ^^^ p.s1) 45 hs3 (by norm_num) (by norm_num)]

/-- Shifting the iterated state by one draw. -/
theorem spec_next_iter_shift (p : mazelib_prng) (k : Nat) :
    spec_next_iter p (k + 1) = spec_next_iter (mazelib_prng_next p).2 k := by
  induction k with
  | zero => rfl
  | succ n ih =>
    show (mazelib_prng_next (spec_next_iter p (n + 1))).2 =
      (mazelib_prng_next (spec_next_iter (mazelib_prng_next p).2 n)).2
    rw [ih]

/-- Shifting the draw sequence by one draw. -/
theorem spec_draw_shift (p : mazelib_prng) (k : Nat) :
    spec_draw p (k + 1) = spec_draw (mazelib_prng_next p).2 k := by
  unfold spec_draw
  rw [spec_next_iter_shift]

/-- A successful `next_in_range` call returns `x mod range` for the first
drawn `x` that the wraparound comparison accepts, resampling past every
rejected draw, and leaves the PRNG advanced exactly past that draw. -/
theorem mazelib_nir_first_accept :
    ∀ (fuel : Nat) (p : mazelib_prng) (range r : Nat) (p2 : mazelib_prng), range ≠ 0 →
      mazelib_prng_next_in_range p range fuel = some (r, p2) →
      ∃ k, k < fuel ∧ (∀ j, j < k → spec_rejects range (spec_draw p j)) ∧
        ¬ spec_rejects range (spec_draw p k) ∧
        r = spec_draw p k % range ∧ p2 = spec_next_iter p (k + 1) := by
  intro fuel
  induction fuel with
  | zero =>
    intro p range r p2 h0 h
    simp [mazelib_prng_next_in_range] at h
  | succ n ih =>
    intro p range r p2 h0 h
    rw [mazelib_nir_succ p range n h0] at h
    split at h
    · obtain ⟨k, hk, hbefore, hacc, hr, hp⟩ := ih (mazelib_prng_next p).2 range r p2 h0 h
      refine ⟨k + 1, by omega, ?_, ?_, ?_, ?_⟩
      · intro j hj
        cases j with
        | zero => assumption
        | succ j => rw [spec_draw_shift]; exact hbefore j (by omega)
      · rw [spec_draw_shift]; exact hacc
      · rw [spec_draw_shift]; exact hr
      · rw [spec_next_iter_shift]; exact hp
    · rename_i hacc
      obtain ⟨hr, hp⟩ := Prod.mk.injEq .. ▸ Option.some.injEq .. ▸ h
      exact ⟨0, by omega, fun j hj => absurd hj (Nat.not_lt_zero j), hacc, hr.symm, hp.symm⟩

/-- C4: over exact modulo-2^64 arithmetic, `mazelib_prng_seed` runs the
stated splitmix64 recurrence four times into the state words;
`mazelib_prng_next` is exactly the xoshiro256++ step
(`rotate_left(s0+s3, 23) + s0` with the stated state update); and for every
`range > 0` a completed `mazelib_prng_next_in_range` call returns
`r = x mod range < range` for the first drawn `x` whose wrapped `x - r` does
not exceed `2^64 - range`, resampling otherwise. -/
theorem C4_prng_bit_exact :
    (∀ x, mazelib_prng_seed x = spec_prng_seed x) ∧
    (∀ p : mazelib_prng, p.s0 < M64 → p.s1 < M64 → p.s2 < M64 → p.s3 < M64 →
      mazelib_prng_next p = spec_prng_next p) ∧
    (∀ fuel (p : mazelib_prng) range r p2, range ≠ 0 →
      mazelib_prng_next_in_range p range fuel = some (r, p2) →
      ∃ k, k < fuel ∧ (∀ j, j < k → spec_rejects range (spec_draw p j)) ∧
        ¬ spec_rejects range (spec_draw p k) ∧
        r = spec_draw p k % range ∧ p2 = spec_next_iter p (k + 1)) ∧
    (∀ fuel (p : mazelib_prng) range r p2,
      mazelib_prng_next_in_range p range fuel = some (r, p2) → r < range) :=
  ⟨fun _ => rfl, mazelib_next_eq_spec, mazelib_nir_first_accept,
   fun _ _ _ _ _ h => mazelib_nir_lt h⟩

/-- Witness for C4 at the concrete state (1, 2, 3, 4): the step agrees with
the spec recurrence, and the bounded-range draw with range 7 is below 7. -/
theorem C4_prng_bit_exact_witness :
    mazelib_prng_next ⟨1, 2, 3, 4⟩ = spec_prng_next ⟨1, 2, 3, 4⟩ ∧ 0 < 7 :=
  ⟨C4_prng_bit_exact.2.1 ⟨1, 2, 3, 4⟩ (by decide) (by decide) (by decide) (by decide),
   C4_prng_bit_exact.2.2.2 5 ⟨1, 2, 3, 4⟩ 7 0 ⟨7, 0, 262146, 211106232532992⟩ (by decide)⟩

/-! Claim C9: failed up-front validation is atomic. -/

/-- C9: when `mazelib_generate_extended` fails its up-front validation (NULL
output, undersized buffer, NULL PRNG or NULL callback) it returns 0 with the
caller's PRNG state and output buffer completely untouched. -/
theorem C9_validation_atomic :
    ∀ (w h : Nat) (prngOpt : Option mazelib_prng)
      (cbOpt : Option mazelib_cell_selection_callback) (bw : Bool)
      (outOpt : Option (List Nat)) (fuel : Nat),
      (outOpt = none ∨ prngOpt = none ∨ cbOpt = none ∨
        ∃ out, outOpt = some out ∧
          out.length < mazelib_get_required_buffer_size w h bw) →
      mazelib_generate_extended w h prngOpt cbOpt bw outOpt fuel =
        some (0, prngOpt, outOpt) := by
  intro w h prngOpt cbOpt bw outOpt fuel hfail
  rcases hfail with h1 | h1 | h1 | ⟨o, ho, hlt⟩
  · subst h1; rfl
  · subst h1
    cases outOpt with
    | none => rfl
    | some out =>
      by_cases hsz : out.length < mazelib_get_required_buffer_size w h bw
      · simp [mazelib_generate_extended, hsz]
      · simp [mazelib_generate_extended, hsz]
  · subst h1
    cases outOpt with
    | none => rfl
    | some out =>
      cases prngOpt with
      | none =>
        by_cases hsz : out.length < mazelib_get_required_buffer_size w h bw
        · simp [mazelib_generate_extended, hsz]
        · simp [mazelib_generate_extended, hsz]
      | some p =>
        by_cases hsz : out.length < mazelib_get_required_buffer_size w h bw
        · simp [mazelib_generate_extended, hsz]
        · simp [mazelib_generate_extended, hsz]
  · subst ho
    simp [mazelib_generate_extended, hlt]

/-- Witness for C9: a NULL PRNG with an otherwise valid 3×3 request fails
atomically. -/
theorem C9_validation_atomic_witness :
    mazelib_generate_extended 3 3 none (some (fun c p => some (c - 1, p))) false
      (some (List.replicate 100 0)) 10 =
      some (0, none, some (List.replicate 100 0)) :=
  C9_validation_atomic 3 3 none (some (fun c p => some (c - 1, p))) false
    (some (List.replicate 100 0)) 10 (Or.inr (Or.inl rfl))

/-! Claim C7: zero dimensions.  The claim says `mazelib_generate` returns 0
for `width = 0` or `height = 0` with no trap; the code has no explicit
dimension check, `required_size` is 0 for a zero dimension, so with any
non-NULL buffer the size guard passes and the start-cell draw executes
`x % 0` — division by zero, undefined behaviour in C (a trap on common
targets).  The spec (its error taxonomy lists "Invalid geometry" as a
sentinel-0 failure) is the evident intent; the code is the slip. -/

/-- C7: evaluating the code at width 0, height 1, seed 1, threshold 50,
compact format and a non-NULL zero-length buffer (which satisfies the size
check because the required size is 0) reaches
`mazelib_prng_next_in_range (range := 0)`, i.e. the undefined `x % 0`,
modelled as `none` — not the claimed sentinel return 0. -/
theorem C7_zero_width_division_by_zero :
    mazelib_generate 0 1 1 50 false (some []) 100 = none := by decide

/-! Claim C10: threshold 0 never touches the PRNG in the selection
callback. -/

/-- C10: with effective threshold 0 the default selection callback returns
`count - 1` and returns the PRNG state unchanged (the `[0,100]` draw is
short-circuited away by the C `&&`), and consequently a threshold-0
`mazelib_generate` run is the same run as one driven by a PRNG-free pure
LIFO selection strategy — the PRNG advances only for the start-cell draws
and the per-step direction shuffles of the engine itself. -/
theorem C10_threshold_zero_frame :
    (∀ (fuel count : Nat) (p : mazelib_prng),
      mazelib_high_level_cell_selection_callback 0 fuel count p = some (count - 1, p)) ∧
    (∀ (w h seed : Nat) (bw : Bool) (outOpt : Option (List Nat)) (fuel : Nat),
      mazelib_generate w h seed 0 bw outOpt fuel =
        mazelib_drop_prng (mazelib_generate_extended w h (some (mazelib_prng_seed seed))
          (some (fun count p => some (count - 1, p))) bw outOpt fuel)) := by
  constructor
  · intro fuel count p
    simp [mazelib_high_level_cell_selection_callback]
  · intro w h seed bw outOpt fuel
    have hcb : mazelib_high_level_cell_selection_callback 0 fuel =
        (fun count p => some (count - 1, p)) := by
      funext count p
      simp [mazelib_high_level_cell_selection_callback]
    simp only [mazelib_generate]
    norm_num
    rw [hcb]

/-! Claim C6: boundary thresholds of the default selection strategy.
Threshold 0 indeed always selects the most recent entry.  Threshold 100 does
NOT always delegate to a uniform random index: the per-step draw is uniform
on [0, 100] (101 values), and when it equals 100 the comparison `100 < 100`
fails and the callback returns `count - 1` instead of drawing a random
index. -/

/-- Counterexample to C6 as stated: from the PRNG state (0, 0, 0, 100·2^41)
the threshold draw is exactly 100, and the threshold-100 callback returns
`count - 1` without drawing a selection index, which differs from the
claimed unconditional delegation to a uniform draw. -/
theorem C6_counterexample :
    mazelib_high_level_cell_selection_callback 100 30 5 ⟨0, 0, 0, 219902325555200⟩ ≠
      spec_threshold100_selection 30 5 ⟨0, 0, 0, 219902325555200⟩ := by decide

/-- C6 (amended): threshold 0 always selects the most recently added entry
(index `count - 1`) without consulting the PRNG; threshold 100 draws uniform
on `[0, 100]` and delegates to a uniformly random index in `[0, count)`
exactly when that draw is strictly below 100, returning `count - 1` when the
draw equals 100. -/
theorem C6_threshold_boundaries :
    (∀ (fuel count : Nat) (p : mazelib_prng),
      mazelib_high_level_cell_selection_callback 0 fuel count p = some (count - 1, p)) ∧
    (∀ (fuel count : Nat) (p p2 : mazelib_prng) (u : Nat),
      mazelib_prng_next_in_range p 101 fuel = some (u, p2) →
      (u < 100 → mazelib_high_level_cell_selection_callback 100 fuel count p =
        mazelib_prng_next_in_range p2 count fuel) ∧
      (u = 100 → mazelib_high_level_cell_selection_callback 100 fuel count p =
        some (count - 1, p2))) := by
  constructor
  · intro fuel count p
    simp [mazelib_high_level_cell_selection_callback]
  · intro fuel count p p2 u hdraw
    have hu : u < 101 := mazelib_nir_lt hdraw
    have hcast : mazelib_to_int8 u = (u : Int) := by
      unfold mazelib_to_int8
      rw [Nat.mod_eq_of_lt (by omega)]
      rw [if_pos (by omega)]
    constructor
    · intro hlt
      simp only [mazelib_high_level_cell_selection_callback, hdraw, hcast]
      rw [if_pos (by norm_num), if_pos (by exact_mod_cast hlt)]
    · intro heq
      subst heq
      simp only [mazelib_high_level_cell_selection_callback, hdraw, hcast]
      rw [if_pos (by norm_num), if_neg (by norm_num)]

/-- Witness for C6 at the crafted state: the threshold draw is 100 and the
callback returns index `count - 1 = 4` with the PRNG advanced only past that
single draw. -/
theorem C6_threshold_boundaries_witness :
    mazelib_high_level_cell_selection_callback 100 30 5 ⟨0, 0, 0, 219902325555200⟩ =
      some (4, ⟨219902325555200, 0, 0, 419430400⟩) :=
  (C6_threshold_boundaries.2 30 5 ⟨0, 0, 0, 219902325555200⟩
    ⟨219902325555200, 0, 0, 419430400⟩ 100 (by decide)).2 rfl

/-! Helper lemmas about lists, bit masks and the cell coordinate
linearization, used by the engine proofs. -/

/-- Characterization of a successful bounds-checked store. -/
theorem listSetChecked_spec {l l2 : List Nat} {i v : Nat}
    (h : listSetChecked l i v = some l2) :
    i < l.length ∧ l2.length = l.length ∧
      ∀ j, l2.getD j 0 = if j = i then v else l.getD j 0 := by
  unfold listSetChecked at h
  split at h
  · rename_i hi
    injection h with h
    subst h
    refine ⟨hi, List.length_set .., ?_⟩
    intro j
    by_cases hj : j = i
    · subst hj
      simp [List.getD_eq_getElem?_getD, List.getElem?_set_self hi]
    · simp [List.getD_eq_getElem?_getD, List.getElem?_set_ne (Ne.symm hj), hj]
  · exact Option.noConfusion h

/-- A bounds-checked store within the buffer succeeds. -/
theorem listSetChecked_of_lt {l : List Nat} {i : Nat} (v : Nat) (h : i < l.length) :
    listSetChecked l i v = some (l.set i v) := by
  unfold listSetChecked
  rw [if_pos h]

/-- Every byte of the cleared grid is zero. -/
theorem getD_replicate_zero (n j : Nat) : (List.replicate n (0 : Nat)).getD j 0 = 0 := by
  rcases lt_or_ge j n with hj | hj
  · simp [List.getD_eq_getElem?_getD, List.getElem?_replicate_of_lt hj]
  · have hlen : (List.replicate n (0 : Nat)).length ≤ j := by simpa using hj
    simp [List.getD_eq_getElem?_getD, List.getElem?_eq_none hlen]

/-- An in-bounds `getD` is a member of the list. -/
theorem getD_mem_of_lt {l : List Nat} {i : Nat} (h : i < l.length) : l.getD i 0 ∈ l := by
  rw [List.getD_eq_getElem?_getD, List.getElem?_eq_getElem h]
  exact List.getElem_mem h

/-- `getD` on an appended singleton, at the old length. -/
theorem getD_append_singleton (l : List Nat) (v : Nat) :
    (l ++ [v]).getD l.length 0 = v := by
  rw [List.getD_eq_getElem?_getD, List.getElem?_concat_length]
  rfl

/-- A member missing from `eraseIdx l i` must be the element at index `i`. -/
theorem eq_getD_of_not_mem_eraseIdx {l : List Nat} {i a : Nat}
    (ha : a ∈ l) (hna : a ∉ l.eraseIdx i) : a = l.getD i 0 := by
  by_contra hne
  apply hna
  rw [List.mem_eraseIdx_iff_get?]
  obtain ⟨n, hget⟩ := List.mem_iff_get?.mp ha
  refine ⟨n, fun hni => ?_, hget⟩
  subst hni
  have : l.getD n 0 = a := by rw [List.getD_eq_get?, hget]; rfl
  exact hne this.symm

/-- Swapping two in-range positions preserves length. -/
theorem listSwap_length (l : List Nat) (i j : Nat) : (listSwap l i j).length = l.length := by
  simp [listSwap]

/-- The optional entry of a swapped list. -/
theorem listSwap_getElem? (l : List Nat) (i j k : Nat) (hi : i < l.length)
    (hj : j < l.length) :
    (listSwap l i j)[k]? =
      if k = j then some (l.getD i 0)
      else if k = i then some (l.getD j 0)
      else l[k]? := by
  unfold listSwap
  by_cases hkj : k = j
  · subst hkj
    rw [if_pos rfl, List.getElem?_set_self (by simpa using hj)]
  · rw [if_neg hkj, List.getElem?_set_ne (Ne.symm hkj)]
    by_cases hki : k = i
    · subst hki
      rw [if_pos rfl, List.getElem?_set_self hi]
    · rw [if_neg hki, List.getElem?_set_ne (Ne.symm hki)]

/-- Swapping two in-range positions preserves the set of members. -/
theorem listSwap_mem {l : List Nat} {i j : Nat} (hi : i < l.length) (hj : j < l.length)
    (v : Nat) : v ∈ listSwap l i j ↔ v ∈ l := by
  constructor
  · intro hv
    obtain ⟨k, hk⟩ := List.mem_iff_getElem?.mp hv
    rw [listSwap_getElem? l i j k hi hj] at hk
    split at hk
    · injection hk with hk2
      exact hk2 ▸ getD_mem_of_lt hi
    · split at hk
      · injection hk with hk2
        exact hk2 ▸ getD_mem_of_lt hj
      · exact List.mem_iff_getElem?.mpr ⟨k, hk⟩
  · intro hv
    obtain ⟨k, hk⟩ := List.mem_iff_getElem?.mp hv
    by_cases hki : k = i
    · rw [hki] at hk
      refine List.mem_iff_getElem?.mpr ⟨j, ?_⟩
      rw [listSwap_getElem? l i j j hi hj, if_pos rfl]
      rw [List.getD_eq_getElem?_getD, hk]
      rfl
    · by_cases hkj : k = j
      · rw [hkj] at hk
        refine List.mem_iff_getElem?.mpr ⟨i, ?_⟩
        rw [listSwap_getElem? l i j i hi hj]
        by_cases hij : i = j
        · subst hij
          rw [if_pos rfl]
          rw [List.getD_eq_getElem?_getD, hk]
          rfl
        · rw [if_neg hij, if_pos rfl]
          rw [List.getD_eq_getElem?_getD, hk]
          rfl
      · refine List.mem_iff_getElem?.mpr ⟨k, ?_⟩
        rw [listSwap_getElem? l i j k hi hj, if_neg hkj, if_neg hki]
        exact hk

/-- A bitwise or vanishes iff both operands vanish. -/
theorem mazelib_lor_eq_zero {a b : Nat} : a ||| b = 0 ↔ a = 0 ∧ b = 0 := by
  constructor
  · intro h
    constructor
    · apply Nat.eq_of_testBit_eq
      intro i
      have hb := congrArg (fun n => Nat.testBit n i) h
      simpa [Nat.testBit_or] using And.left (by simpa [Nat.testBit_or] using hb)
    · apply Nat.eq_of_testBit_eq
      intro i
      have hb := congrArg (fun n => Nat.testBit n i) h
      simpa [Nat.testBit_or] using And.right (by simpa [Nat.testBit_or] using hb)
  · rintro ⟨rfl, rfl⟩
    rfl

/-- Testing a mask on a bitwise or distributes. -/
theorem or_mask_ne_zero (a b m : Nat) :
    ((a ||| b) &&& m ≠ 0) ↔ (a &&& m ≠ 0 ∨ b &&& m ≠ 0) := by
  rw [Nat.and_distrib_right]
  rw [Ne, mazelib_lor_eq_zero, not_and_or]

/-- For two single direction bits, the mask test is equality. -/
theorem single_bit_and {d m : Nat} (hd : d = 1 ∨ d = 2 ∨ d = 4 ∨ d = 8)
    (hm : m = 1 ∨ m = 2 ∨ m = 4 ∨ m = 8) : (d &&& m ≠ 0) ↔ d = m := by
  rcases hd with rfl | rfl | rfl | rfl <;> rcases hm with rfl | rfl | rfl | rfl <;> decide

/-- A direction bit is nonzero. -/
theorem single_bit_ne_zero {d : Nat} (hd : d = 1 ∨ d = 2 ∨ d = 4 ∨ d = 8) : d ≠ 0 := by
  rcases hd with rfl | rfl | rfl | rfl <;> decide

/-- Decomposition: the column of a linearized cell. -/
theorem cell_decomp_div (x y h : Nat) (hy : y < h) : (x * h + y) / h = x := by
  rw [mul_comm, Nat.mul_add_div (by omega)]
  rw [Nat.div_eq_of_lt hy]
  omega

/-- Decomposition: the row of a linearized cell. -/
theorem cell_decomp_mod (x y h : Nat) (hy : y < h) : (x * h + y) % h = y := by
  rw [mul_comm, Nat.mul_add_mod]
  exact Nat.mod_eq_of_lt hy

/-- A linearized in-range cell index is below `w*h`. -/
theorem cell_index_lt {x y w h : Nat} (hx : x < w) (hy : y < h) : x * h + y < w * h := by
  calc x * h + y < x * h + h := by omega
    _ = (x + 1) * h := by ring
    _ ≤ w * h := Nat.mul_le_mul_right h hx

/-- The linearization is injective on in-range coordinates. -/
theorem cell_index_inj {x y x2 y2 h : Nat} (hy : y < h) (hy2 : y2 < h)
    (heq : x * h + y = x2 * h + y2) : x = x2 ∧ y = y2 := by
  constructor
  · have h1 := congrArg (· / h) heq
    simpa [cell_decomp_div x y h hy, cell_decomp_div x2 y2 h hy2] using h1
  · have h1 := congrArg (· % h) heq
    simpa [cell_decomp_mod x y h hy, cell_decomp_mod x2 y2 h hy2] using h1

/-- Every cell index fits the chosen frontier entry width, so the cast the C
code performs when storing a frontier entry is lossless. -/
theorem mazelib_cells_fit {w h : Nat} (hw : w < M32) (hh : h < M32) :
    w * h < 256 ^ mazelib_get_cell_bytes_required_for_dimensions w h := by
  unfold mazelib_get_cell_bytes_required_for_dimensions
  split_ifs with h1 h2 h3
  · calc w * h < 255 := h1
      _ < 256 ^ 1 := by norm_num
  · calc w * h < 65535 := h2
      _ < 256 ^ 2 := by norm_num
  · calc w * h < 4294967295 := h3
      _ < 256 ^ 4 := by norm_num
  · calc w * h < M32 * M32 := Nat.mul_lt_mul'' hw hh
      _ = 256 ^ 8 := by norm_num [M32]

/-- A successful direction shuffle produces a list whose members are exactly
the four direction bits. -/
theorem shuffle_directions_mem {p p2 : mazelib_prng} {fuel : Nat} {dirs : List Nat}
    (h : mazelib_shuffle_directions p fuel = some (dirs, p2)) :
    ∀ v, v ∈ dirs ↔ (v = 1 ∨ v = 2 ∨ v = 4 ∨ v = 8) := by
  unfold mazelib_shuffle_directions at h
  rcases hm3 : mazelib_prng_next_in_range p 4 fuel with _ | ⟨r3, p3⟩ <;>
    rw [hm3] at h <;> dsimp only at h
  · exact Option.noConfusion h
  rcases hm2 : mazelib_prng_next_in_range p3 3 fuel with _ | ⟨r2, p2b⟩ <;>
    rw [hm2] at h <;> dsimp only at h
  · exact Option.noConfusion h
  rcases hm1 : mazelib_prng_next_in_range p2b 2 fuel with _ | ⟨r1, p1⟩ <;>
    rw [hm1] at h <;> dsimp only at h
  · exact Option.noConfusion h
  have hr3 : r3 % 256 = r3 := Nat.mod_eq_of_lt (by have := mazelib_nir_lt hm3; omega)
  have hr2 : r2 % 256 = r2 := Nat.mod_eq_of_lt (by have := mazelib_nir_lt hm2; omega)
  have hr1 : r1 % 256 = r1 := Nat.mod_eq_of_lt (by have := mazelib_nir_lt hm1; omega)
  have hb3 : r3 < 4 := mazelib_nir_lt hm3
  have hb2 : r2 < 3 := mazelib_nir_lt hm2
  have hb1 : r1 < 2 := mazelib_nir_lt hm1
  injection h with h
  obtain ⟨hd, _⟩ : _ ∧ p1 = p2 := Prod.mk.injEq .. ▸ h
  subst hd
  have hlen0 : mazelib_initial_directions.length = 4 := rfl
  have hlen3 : (listSwap mazelib_initial_directions 3 (r3 % 256)).length = 4 := by
    rw [listSwap_length, hlen0]
  have hlen2 : (listSwap (listSwap mazelib_initial_directions 3 (r3 % 256)) 2
      (r2 % 256)).length = 4 := by
    rw [listSwap_length, hlen3]
  intro v
  rw [listSwap_mem (by omega) (by rw [hlen2]; omega) v,
    listSwap_mem (by omega) (by rw [hlen3]; omega) v,
    listSwap_mem (by omega) (by rw [hlen0]; omega) v]
  simp [mazelib_initial_directions]

/-- Characterization of a successful neighbor scan: the returned neighbor is
unvisited and is the neighbor of `(x, y)` in the returned direction, with the
matching opposite direction. -/
theorem find_neighbor_some {w h : Nat} {grid : List Nat} {x y : Nat} :
    ∀ {dirs : List Nat} {d opp n : Nat},
      (∀ v ∈ dirs, v = 1 ∨ v = 2 ∨ v = 4 ∨ v = 8) →
      mazelib_find_neighbor w h grid x y dirs = some (d, opp, n) →
      grid.getD n 0 = 0 ∧
        ((d = 1 ∧ opp = 2 ∧ x ≠ 0 ∧ n = (x - 1) * h + y) ∨
         (d = 2 ∧ opp = 1 ∧ x ≠ w - 1 ∧ n = (x + 1) * h + y) ∨
         (d = 4 ∧ opp = 8 ∧ y ≠ 0 ∧ n = x * h + (y - 1)) ∨
         (d = 8 ∧ opp = 4 ∧ y ≠ h - 1 ∧ n = x * h + (y + 1))) := by
  intro dirs
  induction dirs with
  | nil =>
    intro d opp n _ hfind
    exact Option.noConfusion hfind
  | cons e rest ih =>
    intro d opp n hsub hfind
    have hrest : ∀ v ∈ rest, v = 1 ∨ v = 2 ∨ v = 4 ∨ v = 8 :=
      fun v hv => hsub v (List.mem_cons_of_mem e hv)
    rcases hsub e (List.mem_cons_self e rest) with rfl | rfl | rfl | rfl
    · by_cases hx : x = 0
      · rw [show mazelib_find_neighbor w h grid x y (1 :: rest) =
            mazelib_find_neighbor w h grid x y rest by
          simp [mazelib_find_neighbor, hx]] at hfind
        exact ih hrest hfind
      · by_cases hvis : grid.getD (mazelib_get_cell_index (x - 1) y h) 0 ≠ 0
        · rw [show mazelib_find_neighbor w h grid x y (1 :: rest) =
              mazelib_find_neighbor w h grid x y rest by
            simp only [List.getD_eq_getElem?_getD, mazelib_get_cell_index] at hvis
            simp [mazelib_find_neighbor, hx, mazelib_get_cell_index, hvis]] at hfind
          exact ih hrest hfind
        · rw [show mazelib_find_neighbor w h grid x y (1 :: rest) =
              some (1, 2, mazelib_get_cell_index (x - 1) y h) by
            simp only [List.getD_eq_getElem?_getD, mazelib_get_cell_index] at hvis
            simp [mazelib_find_neighbor, hx, mazelib_get_cell_index, hvis]] at hfind
          injection hfind with hfind
          obtain ⟨h1, h2, h3⟩ : d = 1 ∧ opp = 2 ∧ n = mazelib_get_cell_index (x - 1) y h := by
            simpa using hfind.symm
          subst h1; subst h2; subst h3
          push_neg at hvis
          exact ⟨hvis, Or.inl ⟨rfl, rfl, hx, rfl⟩⟩
    · by_cases hx : x = w - 1
      · rw [show mazelib_find_neighbor w h grid x y (2 :: rest) =
            mazelib_find_neighbor w h grid x y rest by
          simp [mazelib_find_neighbor, hx]] at hfind
        exact ih hrest hfind
      · by_cases hvis : grid.getD (mazelib_get_cell_index (x + 1) y h) 0 ≠ 0
        · rw [show mazelib_find_neighbor w h grid x y (2 :: rest) =
              mazelib_find_neighbor w h grid x y rest by
            simp only [List.getD_eq_getElem?_getD, mazelib_get_cell_index] at hvis
            simp [mazelib_find_neighbor, hx, mazelib_get_cell_index, hvis]] at hfind
          exact ih hrest hfind
        · rw [show mazelib_find_neighbor w h grid x y (2 :: rest) =
              some (2, 1, mazelib_get_cell_index (x + 1) y h) by
            simp only [List.getD_eq_getElem?_getD, mazelib_get_cell_index] at hvis
            simp [mazelib_find_neighbor, hx, mazelib_get_cell_index, hvis]] at hfind
          injection hfind with hfind
          obtain ⟨h1, h2, h3⟩ : d = 2 ∧ opp = 1 ∧ n = mazelib_get_cell_index (x + 1) y h := by
            simpa using hfind.symm
          subst h1; subst h2; subst h3
          push_neg at hvis
          exact ⟨hvis, Or.inr (Or.inl ⟨rfl, rfl, hx, rfl⟩)⟩
    · by_cases hy : y = 0
      · rw [show mazelib_find_neighbor w h grid x y (4 :: rest) =
            mazelib_find_neighbor w h grid x y rest by
          simp [mazelib_find_neighbor, hy]] at hfind
        exact ih hrest hfind
      · by_cases hvis : grid.getD (mazelib_get_cell_index x (y - 1) h) 0 ≠ 0
        · rw [show mazelib_find_neighbor w h grid x y (4 :: rest) =
              mazelib_find_neighbor w h grid x y rest by
            simp only [List.getD_eq_getElem?_getD, mazelib_get_cell_index] at hvis
            simp [mazelib_find_neighbor, hy, mazelib_get_cell_index, hvis]] at hfind
          exact ih hrest hfind
        · rw [show mazelib_find_neighbor w h grid x y (4 :: rest) =
              some (4, 8, mazelib_get_cell_index x (y - 1) h) by
            simp only [List.getD_eq_getElem?_getD, mazelib_get_cell_index] at hvis
            simp [mazelib_find_neighbor, hy, mazelib_get_cell_index, hvis]] at hfind
          injection hfind with hfind
          obtain ⟨h1, h2, h3⟩ : d = 4 ∧ opp = 8 ∧ n = mazelib_get_cell_index x (y - 1) h := by
            simpa using hfind.symm
          subst h1; subst h2; subst h3
          push_neg at hvis
          exact ⟨hvis, Or.inr (Or.inr (Or.inl ⟨rfl, rfl, hy, rfl⟩))⟩
    · by_cases hy : y = h - 1
      · rw [show mazelib_find_neighbor w h grid x y (8 :: rest) =
            mazelib_find_neighbor w h grid x y rest by
          simp [mazelib_find_neighbor, hy]] at hfind
        exact ih hrest hfind
      · by_cases hvis : grid.getD (mazelib_get_cell_index x (y + 1) h) 0 ≠ 0
        · rw [show mazelib_find_neighbor w h grid x y (8 :: rest) =
              mazelib_find_neighbor w h grid x y rest by
            simp only [List.getD_eq_getElem?_getD, mazelib_get_cell_index] at hvis
            simp [mazelib_find_neighbor, hy, mazelib_get_cell_index, hvis]] at hfind
          exact ih hrest hfind
        · rw [show mazelib_find_neighbor w h grid x y (8 :: rest) =
              some (8, 4, mazelib_get_cell_index x (y + 1) h) by
            simp only [List.getD_eq_getElem?_getD, mazelib_get_cell_index] at hvis
            simp [mazelib_find_neighbor, hy, mazelib_get_cell_index, hvis]] at hfind
          injection hfind with hfind
          obtain ⟨h1, h2, h3⟩ : d = 8 ∧ opp = 4 ∧ n = mazelib_get_cell_index x (y + 1) h := by
            simpa using hfind.symm
          subst h1; subst h2; subst h3
          push_neg at hvis
          exact ⟨hvis, Or.inr (Or.inr (Or.inr ⟨rfl, rfl, hy, rfl⟩))⟩

/-- Characterization of a failed neighbor scan: every direction on the list
is rejected, either at the grid boundary or because the neighbor is already
visited. -/
theorem find_neighbor_none {w h : Nat} {grid : List Nat} {x y : Nat} :
    ∀ {dirs : List Nat},
      (∀ v ∈ dirs, v = 1 ∨ v = 2 ∨ v = 4 ∨ v = 8) →
      mazelib_find_neighbor w h grid x y dirs = none →
      ∀ e ∈ dirs,
        (e = 1 → x = 0 ∨ grid.getD ((x - 1) * h + y) 0 ≠ 0) ∧
        (e = 2 → x = w - 1 ∨ grid.getD ((x + 1) * h + y) 0 ≠ 0) ∧
        (e = 4 → y = 0 ∨ grid.getD (x * h + (y - 1)) 0 ≠ 0) ∧
        (e = 8 → y = h - 1 ∨ grid.getD (x * h + (y + 1)) 0 ≠ 0) := by
  intro dirs
  induction dirs with
  | nil =>
    intro _ _ e he
    exact absurd he (List.not_mem_nil e)
  | cons e0 rest ih =>
    intro hsub hfind e he
    have hrestsub : ∀ v ∈ rest, v = 1 ∨ v = 2 ∨ v = 4 ∨ v = 8 :=
      fun v hv => hsub v (List.mem_cons_of_mem e0 hv)
    have hcases : (mazelib_find_neighbor w h grid x y (e0 :: rest) =
          mazelib_find_neighbor w h grid x y rest ∧
        ((e0 = 1 → x = 0 ∨ grid.getD ((x - 1) * h + y) 0 ≠ 0) ∧
         (e0 = 2 → x = w - 1 ∨ grid.getD ((x + 1) * h + y) 0 ≠ 0) ∧
         (e0 = 4 → y = 0 ∨ grid.getD (x * h + (y - 1)) 0 ≠ 0) ∧
         (e0 = 8 → y = h - 1 ∨ grid.getD (x * h + (y + 1)) 0 ≠ 0))) ∨
        (∃ v, mazelib_find_neighbor w h grid x y (e0 :: rest) = some v) := by
      rcases hsub e0 (List.mem_cons_self e0 rest) with rfl | rfl | rfl | rfl
      · by_cases hx : x = 0
        · refine Or.inl ⟨by simp [mazelib_find_neighbor, hx], ?_⟩
          exact ⟨fun _ => Or.inl hx, fun hc => absurd hc (by decide),
            fun hc => absurd hc (by decide), fun hc => absurd hc (by decide)⟩
        · by_cases hvis : grid.getD (mazelib_get_cell_index (x - 1) y h) 0 ≠ 0
          · refine Or.inl ⟨by
              simp only [List.getD_eq_getElem?_getD, mazelib_get_cell_index] at hvis
              simp [mazelib_find_neighbor, hx, mazelib_get_cell_index, hvis], ?_⟩
            refine ⟨fun _ => Or.inr ?_, fun hc => absurd hc (by decide),
              fun hc => absurd hc (by decide), fun hc => absurd hc (by decide)⟩
            simpa [mazelib_get_cell_index] using hvis
          · refine Or.inr ⟨(1, 2, mazelib_get_cell_index (x - 1) y h), by
              simp only [List.getD_eq_getElem?_getD, mazelib_get_cell_index] at hvis
              simp [mazelib_find_neighbor, hx, mazelib_get_cell_index, hvis]⟩
      · by_cases hx : x = w - 1
        · refine Or.inl ⟨by simp [mazelib_find_neighbor, hx], ?_⟩
          exact ⟨fun hc => absurd hc (by decide), fun _ => Or.inl hx,
            fun hc => absurd hc (by decide), fun hc => absurd hc (by decide)⟩
        · by_cases hvis : grid.getD (mazelib_get_cell_index (x + 1) y h) 0 ≠ 0
          · refine Or.inl ⟨by
              simp only [List.getD_eq_getElem?_getD, mazelib_get_cell_index] at hvis
              simp [mazelib_find_neighbor, hx, mazelib_get_cell_index, hvis], ?_⟩
            refine ⟨fun hc => absurd hc (by decide), fun _ => Or.inr ?_,
              fun hc => absurd hc (by decide), fun hc => absurd hc (by decide)⟩
            simpa [mazelib_get_cell_index] using hvis
          · refine Or.inr ⟨(2, 1, mazelib_get_cell_index (x + 1) y h), by
              simp only [List.getD_eq_getElem?_getD, mazelib_get_cell_index] at hvis
              simp [mazelib_find_neighbor, hx, mazelib_get_cell_index, hvis]⟩
      · by_cases hy : y = 0
        · refine Or.inl ⟨by simp [mazelib_find_neighbor, hy], ?_⟩
          exact ⟨fun hc => absurd hc (by decide), fun hc => absurd hc (by decide),
            fun _ => Or.inl hy, fun hc => absurd hc (by decide)⟩
        · by_cases hvis : grid.getD (mazelib_get_cell_index x (y - 1) h) 0 ≠ 0
          · refine Or.inl ⟨by
              simp only [List.getD_eq_getElem?_getD, mazelib_get_cell_index] at hvis
              simp [mazelib_find_neighbor, hy, mazelib_get_cell_index, hvis], ?_⟩
            refine ⟨fun hc => absurd hc (by decide), fun hc => absurd hc (by decide),
              fun _ => Or.inr ?_, fun hc => absurd hc (by decide)⟩
            simpa [mazelib_get_cell_index] using hvis
          · refine Or.inr ⟨(4, 8, mazelib_get_cell_index x (y - 1) h), by
              simp only [List.getD_eq_getElem?_getD, mazelib_get_cell_index] at hvis
              simp [mazelib_find_neighbor, hy, mazelib_get_cell_index, hvis]⟩
      · by_cases hy : y = h - 1
        · refine Or.inl ⟨by simp [mazelib_find_neighbor, hy], ?_⟩
          exact ⟨fun hc => absurd hc (by decide), fun hc => absurd hc (by decide),
            fun hc => absurd hc (by decide), fun _ => Or.inl hy⟩
        · by_cases hvis : grid.getD (mazelib_get_cell_index x (y + 1) h) 0 ≠ 0
          · refine Or.inl ⟨by
              simp only [List.getD_eq_getElem?_getD, mazelib_get_cell_index] at hvis
              simp [mazelib_find_neighbor, hy, mazelib_get_cell_index, hvis], ?_⟩
            refine ⟨fun hc => absurd hc (by decide), fun hc => absurd hc (by decide),
              fun hc => absurd hc (by decide), fun _ => Or.inr ?_⟩
            simpa [mazelib_get_cell_index] using hvis
          · refine Or.inr ⟨(8, 4, mazelib_get_cell_index x (y + 1) h), by
              simp only [List.getD_eq_getElem?_getD, mazelib_get_cell_index] at hvis
              simp [mazelib_find_neighbor, hy, mazelib_get_cell_index, hvis]⟩
    rcases hcases with ⟨heq, he0⟩ | ⟨v, hv⟩
    · have hrest : mazelib_find_neighbor w h grid x y rest = none := heq ▸ hfind
      rcases List.mem_cons.mp he with rfl | he2
      · exact he0
      · exact ih hrestsub hrest e he2
    · rw [hv] at hfind
      exact Option.noConfusion hfind

/-! Lemmas about the state change of one carve: writing bit `d` at `cur` and
bit `opp` at the previously unvisited `nidx`. -/

/-- Basic numeric facts about a carve configuration. -/
theorem carve_case_facts {w h x y d opp nidx : Nat} (hx : x < w) (hy : y < h)
    (hc : mazelib_carve_case w h x y d opp nidx) :
    (d = 1 ∨ d = 2 ∨ d = 4 ∨ d = 8) ∧ (opp = 1 ∨ opp = 2 ∨ opp = 4 ∨ opp = 8) ∧
      nidx < w * h ∧ nidx ≠ x * h + y := by
  rcases hc with ⟨rfl, rfl, hne, rfl⟩ | ⟨rfl, rfl, hne, rfl⟩ |
    ⟨rfl, rfl, hne, rfl⟩ | ⟨rfl, rfl, hne, rfl⟩
  · refine ⟨by simp, by simp, cell_index_lt (by omega) hy, ?_⟩
    intro hcon
    obtain ⟨hx1, _⟩ := cell_index_inj hy hy hcon
    omega
  · refine ⟨by simp, by simp, cell_index_lt (by omega) hy, ?_⟩
    intro hcon
    obtain ⟨hx1, _⟩ := cell_index_inj hy hy hcon
    omega
  · refine ⟨by simp, by simp, cell_index_lt hx (by omega), ?_⟩
    intro hcon
    obtain ⟨_, hy1⟩ := cell_index_inj (by omega) hy hcon
    omega
  · refine ⟨by simp, by simp, cell_index_lt hx (by omega), ?_⟩
    intro hcon
    obtain ⟨_, hy1⟩ := cell_index_inj (by omega) hy hcon
    omega

/-- The direction bits of the grid after one carve, cell by cell. -/
theorem carve_bit_iff {grid g2 : List Nat} {cur d opp nidx : Nat}
    (hvis0 : grid.getD nidx 0 = 0) (hne : nidx ≠ cur)
    (hd4 : d = 1 ∨ d = 2 ∨ d = 4 ∨ d = 8) (hopp4 : opp = 1 ∨ opp = 2 ∨ opp = 4 ∨ opp = 8)
    (hg2 : ∀ j, g2.getD j 0 = if j = nidx then 0 ||| opp
        else if j = cur then grid.getD cur 0 ||| d else grid.getD j 0) :
    ∀ c m, (m = 1 ∨ m = 2 ∨ m = 4 ∨ m = 8) →
      ((g2.getD c 0 &&& m ≠ 0) ↔
        (grid.getD c 0 &&& m ≠ 0 ∨ (c = cur ∧ d = m) ∨ (c = nidx ∧ opp = m))) := by
  intro c m hm
  by_cases hcn : c = nidx
  · rw [hg2 c, if_pos hcn, Nat.zero_or, single_bit_and hopp4 hm]
    constructor
    · intro hoe
      exact Or.inr (Or.inr ⟨hcn, hoe⟩)
    · rintro (hold | ⟨hcc, _⟩ | ⟨_, hoe⟩)
      · rw [hcn, hvis0] at hold
        simp at hold
      · exact absurd (hcn.symm.trans hcc) hne
      · exact hoe
  · rw [hg2 c, if_neg hcn]
    by_cases hcc : c = cur
    · rw [if_pos hcc, or_mask_ne_zero, single_bit_and hd4 hm]
      constructor
      · rintro (hold | hdm)
        · exact Or.inl (by rw [hcc]; exact hold)
        · exact Or.inr (Or.inl ⟨hcc, hdm⟩)
      · rintro (hold | ⟨_, hdm⟩ | ⟨hcn2, _⟩)
        · exact Or.inl (by rw [hcc] at hold; exact hold)
        · exact Or.inr hdm
        · exact absurd hcn2 hcn
    · rw [if_neg hcc]
      constructor
      · exact Or.inl
      · rintro (hold | ⟨hcc2, _⟩ | ⟨hcn2, _⟩)
        · exact hold
        · exact absurd hcc2 hcc
        · exact absurd hcn2 hcn

/-- A carve never sets a bit that was already present: the bit `d` about to
be carved at `cur` is absent beforehand, because symmetry would otherwise
make the unvisited neighbor visited. -/
theorem carve_no_prev {w h : Nat} {grid : List Nat} {x y d opp nidx : Nat}
    (hx : x < w) (hy : y < h)
    (hc : mazelib_carve_case w h x y d opp nidx)
    (hvis0 : grid.getD nidx 0 = 0)
    (hsymm : mazelib_grid_symm w h grid) :
    grid.getD (x * h + y) 0 &&& d = 0 := by
  have hnb : ∀ m, grid.getD nidx 0 &&& m = 0 := by
    intro m
    rw [hvis0]
    simp
  rcases hc with ⟨rfl, rfl, hne, rfl⟩ | ⟨rfl, rfl, hne, rfl⟩ |
    ⟨rfl, rfl, hne, rfl⟩ | ⟨rfl, rfl, hne, rfl⟩
  · by_contra hbit
    have hiff := (hsymm (x - 1) y (by omega) hy).1 (by omega)
    rw [show x - 1 + 1 = x by omega] at hiff
    have h2 := hiff.mpr hbit
    rw [hnb 2] at h2
    exact h2 rfl
  · by_contra hbit
    have hiff := (hsymm x y hx hy).1 (by omega)
    have := hiff.mp hbit
    rw [hnb 1] at this
    exact this rfl
  · by_contra hbit
    have hiff := (hsymm x (y - 1) hx (by omega)).2 (by omega)
    rw [show y - 1 + 1 = y by omega] at hiff
    have := hiff.mpr hbit
    rw [hnb 8] at this
    exact this rfl
  · by_contra hbit
    have hiff := (hsymm x y hx hy).2 (by omega)
    have := hiff.mp hbit
    rw [hnb 4] at this
    exact this rfl

/-- One carve preserves bit-symmetry. -/
theorem carve_symm {w h : Nat} {grid g2 : List Nat} {cur x y d opp nidx : Nat}
    (hx : x < w) (hy : y < h) (hcur : cur = x * h + y)
    (hc : mazelib_carve_case w h x y d opp nidx)
    (hvis0 : grid.getD nidx 0 = 0) (hne : nidx ≠ cur)
    (hg2 : ∀ j, g2.getD j 0 = if j = nidx then 0 ||| opp
        else if j = cur then grid.getD cur 0 ||| d else grid.getD j 0)
    (hsymm : mazelib_grid_symm w h grid) :
    mazelib_grid_symm w h g2 := by
  obtain ⟨hd4, hopp4, _, _⟩ := carve_case_facts hx hy hc
  have hbit := carve_bit_iff hvis0 hne hd4 hopp4 hg2
  intro x0 y0 hx0 hy0
  constructor
  · intro hxw
    rw [hbit (x0 * h + y0) 2 (by simp), hbit ((x0 + 1) * h + y0) 1 (by simp)]
    have hold := (hsymm x0 y0 hx0 hy0).1 hxw
    rcases hc with ⟨rfl, rfl, hxne, rfl⟩ | ⟨rfl, rfl, hxne, rfl⟩ |
      ⟨rfl, rfl, hyne, rfl⟩ | ⟨rfl, rfl, hyne, rfl⟩
    · constructor
      · rintro (h2 | ⟨ha, hb⟩ | ⟨ha, hb⟩)
        · exact Or.inl (hold.mp h2)
        · exact absurd hb (by decide)
        · right; left
          refine ⟨?_, rfl⟩
          obtain ⟨he1, he2⟩ := cell_index_inj hy0 hy ha
          rw [he1, he2, show x - 1 + 1 = x by omega, hcur]
      · rintro (h1 | ⟨ha, hb⟩ | ⟨ha, hb⟩)
        · exact Or.inl (hold.mpr h1)
        · right; right
          refine ⟨?_, rfl⟩
          rw [hcur] at ha
          obtain ⟨he1, he2⟩ := cell_index_inj hy0 hy ha
          rw [he2, show x0 = x - 1 by omega]
        · exact absurd hb (by decide)
    · constructor
      · rintro (h2 | ⟨ha, hb⟩ | ⟨ha, hb⟩)
        · exact Or.inl (hold.mp h2)
        · right; right
          refine ⟨?_, rfl⟩
          rw [hcur] at ha
          obtain ⟨he1, he2⟩ := cell_index_inj hy0 hy ha
          rw [he1, he2]
        · exact absurd hb (by decide)
      · rintro (h1 | ⟨ha, hb⟩ | ⟨ha, hb⟩)
        · exact Or.inl (hold.mpr h1)
        · exact absurd hb (by decide)
        · right; left
          refine ⟨?_, rfl⟩
          obtain ⟨he1, he2⟩ := cell_index_inj hy0 hy ha
          rw [hcur, he2, show x0 = x by omega]
    · constructor
      · rintro (h2 | ⟨ha, hb⟩ | ⟨ha, hb⟩)
        · exact Or.inl (hold.mp h2)
        · exact absurd hb (by decide)
        · exact absurd hb (by decide)
      · rintro (h1 | ⟨ha, hb⟩ | ⟨ha, hb⟩)
        · exact Or.inl (hold.mpr h1)
        · exact absurd hb (by decide)
        · exact absurd hb (by decide)
    · constructor
      · rintro (h2 | ⟨ha, hb⟩ | ⟨ha, hb⟩)
        · exact Or.inl (hold.mp h2)
        · exact absurd hb (by decide)
        · exact absurd hb (by decide)
      · rintro (h1 | ⟨ha, hb⟩ | ⟨ha, hb⟩)
        · exact Or.inl (hold.mpr h1)
        · exact absurd hb (by decide)
        · exact absurd hb (by decide)
  · intro hyh
    rw [hbit (x0 * h + y0) 8 (by simp), hbit (x0 * h + (y0 + 1)) 4 (by simp)]
    have hold := (hsymm x0 y0 hx0 hy0).2 hyh
    rcases hc with ⟨rfl, rfl, hxne, rfl⟩ | ⟨rfl, rfl, hxne, rfl⟩ |
      ⟨rfl, rfl, hyne, rfl⟩ | ⟨rfl, rfl, hyne, rfl⟩
    · constructor
      · rintro (h8 | ⟨ha, hb⟩ | ⟨ha, hb⟩)
        · exact Or.inl (hold.mp h8)
        · exact absurd hb (by decide)
        · exact absurd hb (by decide)
      · rintro (h4 | ⟨ha, hb⟩ | ⟨ha, hb⟩)
        · exact Or.inl (hold.mpr h4)
        · exact absurd hb (by decide)
        · exact absurd hb (by decide)
    · constructor
      · rintro (h8 | ⟨ha, hb⟩ | ⟨ha, hb⟩)
        · exact Or.inl (hold.mp h8)
        · exact absurd hb (by decide)
        · exact absurd hb (by decide)
      · rintro (h4 | ⟨ha, hb⟩ | ⟨ha, hb⟩)
        · exact Or.inl (hold.mpr h4)
        · exact absurd hb (by decide)
        · exact absurd hb (by decide)
    · constructor
      · rintro (h8 | ⟨ha, hb⟩ | ⟨ha, hb⟩)
        · exact Or.inl (hold.mp h8)
        · exact absurd hb (by decide)
        · right; left
          refine ⟨?_, rfl⟩
          obtain ⟨he1, he2⟩ := cell_index_inj hy0 (by omega) ha
          rw [he1, show y0 + 1 = y by omega, hcur]
      · rintro (h4 | ⟨ha, hb⟩ | ⟨ha, hb⟩)
        · exact Or.inl (hold.mpr h4)
        · right; right
          refine ⟨?_, rfl⟩
          rw [hcur] at ha
          obtain ⟨he1, he2⟩ := cell_index_inj (by omega) hy ha
          rw [he1, show y0 = y - 1 by omega]
        · exact absurd hb (by decide)
    · constructor
      · rintro (h8 | ⟨ha, hb⟩ | ⟨ha, hb⟩)
        · exact Or.inl (hold.mp h8)
        · right; right
          refine ⟨?_, rfl⟩
          rw [hcur] at ha
          obtain ⟨he1, he2⟩ := cell_index_inj hy0 hy ha
          rw [he1, he2]
        · exact absurd hb (by decide)
      · rintro (h4 | ⟨ha, hb⟩ | ⟨ha, hb⟩)
        · exact Or.inl (hold.mpr h4)
        · exact absurd hb (by decide)
        · right; left
          refine ⟨?_, rfl⟩
          obtain ⟨he1, he2⟩ := cell_index_inj (by omega) (by omega) ha
          rw [hcur, he1, show y0 = y by omega]

/-- One carve never creates a bit pointing off the grid. -/
theorem carve_noborder {w h : Nat} {grid g2 : List Nat} {cur x y d opp nidx : Nat}
    (hx : x < w) (hy : y < h) (hcur : cur = x * h + y)
    (hc : mazelib_carve_case w h x y d opp nidx)
    (hvis0 : grid.getD nidx 0 = 0) (hne : nidx ≠ cur)
    (hg2 : ∀ j, g2.getD j 0 = if j = nidx then 0 ||| opp
        else if j = cur then grid.getD cur 0 ||| d else grid.getD j 0)
    (hnob : mazelib_no_border_bits w h grid) :
    mazelib_no_border_bits w h g2 := by
  obtain ⟨hd4, hopp4, _, _⟩ := carve_case_facts hx hy hc
  have hbit := carve_bit_iff hvis0 hne hd4 hopp4 hg2
  intro x0 y0 hx0 hy0
  have hold := hnob x0 y0 hx0 hy0
  refine ⟨?_, ?_, ?_, ?_⟩
  · intro hx00
    by_contra hbitne
    rcases (hbit (x0 * h + y0) 1 (by simp)).mp hbitne with h1 | ⟨ha, hb⟩ | ⟨ha, hb⟩
    · exact h1 (hold.1 hx00)
    · rcases hc with ⟨hd, _, hxne, _⟩ | ⟨hd, _, _, _⟩ | ⟨hd, _, _, _⟩ | ⟨hd, _, _, _⟩
      · obtain ⟨he1, he2⟩ := cell_index_inj hy0 hy (ha.trans hcur)
        omega
      · omega
      · omega
      · omega
    · rcases hc with ⟨_, hopp, _, hnix⟩ | ⟨_, hopp, hxne, hnix⟩ |
        ⟨_, hopp, _, hnix⟩ | ⟨_, hopp, _, hnix⟩
      · omega
      · obtain ⟨he1, he2⟩ := cell_index_inj hy0 hy (ha.trans hnix)
        omega
      · omega
      · omega
  · intro hx00
    by_contra hbitne
    rcases (hbit (x0 * h + y0) 2 (by simp)).mp hbitne with h1 | ⟨ha, hb⟩ | ⟨ha, hb⟩
    · exact h1 (hold.2.1 hx00)
    · rcases hc with ⟨hd, _, _, _⟩ | ⟨hd, _, hxne, _⟩ | ⟨hd, _, _, _⟩ | ⟨hd, _, _, _⟩
      · omega
      · obtain ⟨he1, he2⟩ := cell_index_inj hy0 hy (ha.trans hcur)
        omega
      · omega
      · omega
    · rcases hc with ⟨_, hopp, hxne, hnix⟩ | ⟨_, hopp, _, hnix⟩ |
        ⟨_, hopp, _, hnix⟩ | ⟨_, hopp, _, hnix⟩
      · obtain ⟨he1, he2⟩ := cell_index_inj hy0 hy (ha.trans hnix)
        omega
      · omega
      · omega
      · omega
  · intro hy00
    by_contra hbitne
    rcases (hbit (x0 * h + y0) 4 (by simp)).mp hbitne with h1 | ⟨ha, hb⟩ | ⟨ha, hb⟩
    · exact h1 (hold.2.2.1 hy00)
    · rcases hc with ⟨hd, _, _, _⟩ | ⟨hd, _, _, _⟩ | ⟨hd, _, hyne, _⟩ | ⟨hd, _, _, _⟩
      · omega
      · omega
      · obtain ⟨he1, he2⟩ := cell_index_inj hy0 hy (ha.trans hcur)
        omega
      · omega
    · rcases hc with ⟨_, hopp, _, hnix⟩ | ⟨_, hopp, _, hnix⟩ |
        ⟨_, hopp, _, hnix⟩ | ⟨_, hopp, hyne, hnix⟩
      · omega
      · omega
      · omega
      · obtain ⟨he1, he2⟩ := cell_index_inj hy0 (by omega) (ha.trans hnix)
        omega
  · intro hy00
    by_contra hbitne
    rcases (hbit (x0 * h + y0) 8 (by simp)).mp hbitne with h1 | ⟨ha, hb⟩ | ⟨ha, hb⟩
    · exact h1 (hold.2.2.2 hy00)
    · rcases hc with ⟨hd, _, _, _⟩ | ⟨hd, _, _, _⟩ | ⟨hd, _, _, _⟩ | ⟨hd, _, hyne, _⟩
      · omega
      · omega
      · omega
      · obtain ⟨he1, he2⟩ := cell_index_inj hy0 hy (ha.trans hcur)
        omega
    · rcases hc with ⟨_, hopp, _, hnix⟩ | ⟨_, hopp, _, hnix⟩ |
        ⟨_, hopp, hyne, hnix⟩ | ⟨_, hopp, _, hnix⟩
      · omega
      · omega
      · obtain ⟨he1, he2⟩ := cell_index_inj hy0 (by omega) (ha.trans hnix)
        omega
      · omega

/-- Which cells are visited after one carve. -/
theorem carve_visited_iff {grid g2 : List Nat} {cur d opp nidx : Nat}
    (hvis0 : grid.getD nidx 0 = 0) (hne : nidx ≠ cur)
    (hd4 : d = 1 ∨ d = 2 ∨ d = 4 ∨ d = 8) (hopp4 : opp = 1 ∨ opp = 2 ∨ opp = 4 ∨ opp = 8)
    (hg2 : ∀ j, g2.getD j 0 = if j = nidx then 0 ||| opp
        else if j = cur then grid.getD cur 0 ||| d else grid.getD j 0) :
    ∀ c, mazelib_visited g2 c ↔ (mazelib_visited grid c ∨ c = cur ∨ c = nidx) := by
  intro c
  unfold mazelib_visited
  rw [hg2 c]
  by_cases hcn : c = nidx
  · rw [if_pos hcn, Nat.zero_or]
    constructor
    · intro _
      exact Or.inr (Or.inr hcn)
    · intro _
      exact single_bit_ne_zero hopp4
  · rw [if_neg hcn]
    by_cases hcc : c = cur
    · rw [if_pos hcc]
      constructor
      · intro _
        exact Or.inr (Or.inl hcc)
      · intro _
        rw [Ne, mazelib_lor_eq_zero, not_and_or]
        exact Or.inr (single_bit_ne_zero hd4)
    · rw [if_neg hcc]
      constructor
      · exact Or.inl
      · rintro (hv | hcc2 | hcn2)
        · exact hv
        · exact absurd hcc2 hcc
        · exact absurd hcn2 hcn

/-- Every passage step of the old grid is a passage step of the carved
grid. -/
theorem carve_open_step_mono {w h : Nat} {grid g2 : List Nat} {cur d opp nidx : Nat}
    (hvis0 : grid.getD nidx 0 = 0) (hne : nidx ≠ cur)
    (hd4 : d = 1 ∨ d = 2 ∨ d = 4 ∨ d = 8) (hopp4 : opp = 1 ∨ opp = 2 ∨ opp = 4 ∨ opp = 8)
    (hg2 : ∀ j, g2.getD j 0 = if j = nidx then 0 ||| opp
        else if j = cur then grid.getD cur 0 ||| d else grid.getD j 0) :
    ∀ a b, mazelib_open_step w h grid a b → mazelib_open_step w h g2 a b := by
  have hbit := carve_bit_iff hvis0 hne hd4 hopp4 hg2
  rintro a b ⟨x1, y1, hx1, hy1, ha, hcase⟩
  refine ⟨x1, y1, hx1, hy1, ha, ?_⟩
  rcases hcase with ⟨hb1, hb2, hb3⟩ | ⟨hb1, hb2, hb3⟩ | ⟨hb1, hb2, hb3⟩ | ⟨hb1, hb2, hb3⟩
  · exact Or.inl ⟨hb1, hb2, (hbit a 2 (by simp)).mpr (Or.inl hb3)⟩
  · exact Or.inr (Or.inl ⟨hb1, hb2, (hbit a 1 (by simp)).mpr (Or.inl hb3)⟩)
  · exact Or.inr (Or.inr (Or.inl ⟨hb1, hb2, (hbit a 8 (by simp)).mpr (Or.inl hb3)⟩))
  · exact Or.inr (Or.inr (Or.inr ⟨hb1, hb2, (hbit a 4 (by simp)).mpr (Or.inl hb3)⟩))

/-- The carved passage is an open step in both directions. -/
theorem carve_new_steps {w h : Nat} {grid g2 : List Nat} {cur x y d opp nidx : Nat}
    (hx : x < w) (hy : y < h) (hcur : cur = x * h + y)
    (hc : mazelib_carve_case w h x y d opp nidx)
    (hvis0 : grid.getD nidx 0 = 0) (hne : nidx ≠ cur)
    (hg2 : ∀ j, g2.getD j 0 = if j = nidx then 0 ||| opp
        else if j = cur then grid.getD cur 0 ||| d else grid.getD j 0) :
    mazelib_open_step w h g2 cur nidx ∧ mazelib_open_step w h g2 nidx cur := by
  obtain ⟨hd4, hopp4, _, _⟩ := carve_case_facts hx hy hc
  have hbit := carve_bit_iff hvis0 hne hd4 hopp4 hg2
  rcases hc with ⟨rfl, rfl, hxne, rfl⟩ | ⟨rfl, rfl, hxne, rfl⟩ |
    ⟨rfl, rfl, hyne, rfl⟩ | ⟨rfl, rfl, hyne, rfl⟩
  · constructor
    · exact ⟨x, y, hx, hy, hcur, Or.inr (Or.inl ⟨by omega, rfl,
        (hbit cur 1 (by simp)).mpr (Or.inr (Or.inl ⟨rfl, rfl⟩))⟩)⟩
    · refine ⟨x - 1, y, by omega, hy, rfl, Or.inl ⟨by omega, ?_, ?_⟩⟩
      · rw [show x - 1 + 1 = x by omega, hcur]
      · exact (hbit ((x - 1) * h + y) 2 (by simp)).mpr (Or.inr (Or.inr ⟨rfl, rfl⟩))
  · constructor
    · exact ⟨x, y, hx, hy, hcur, Or.inl ⟨by omega, rfl,
        (hbit cur 2 (by simp)).mpr (Or.inr (Or.inl ⟨rfl, rfl⟩))⟩⟩
    · refine ⟨x + 1, y, by omega, hy, rfl, Or.inr (Or.inl ⟨by omega, ?_, ?_⟩)⟩
      · rw [show x + 1 - 1 = x by omega, hcur]
      · exact (hbit ((x + 1) * h + y) 1 (by simp)).mpr (Or.inr (Or.inr ⟨rfl, rfl⟩))
  · constructor
    · exact ⟨x, y, hx, hy, hcur, Or.inr (Or.inr (Or.inr ⟨by omega, rfl,
        (hbit cur 4 (by simp)).mpr (Or.inr (Or.inl ⟨rfl, rfl⟩))⟩))⟩
    · refine ⟨x, y - 1, hx, by omega, rfl, Or.inr (Or.inr (Or.inl ⟨by omega, ?_, ?_⟩))⟩
      · rw [show y - 1 + 1 = y by omega, hcur]
      · exact (hbit (x * h + (y - 1)) 8 (by simp)).mpr (Or.inr (Or.inr ⟨rfl, rfl⟩))
  · constructor
    · exact ⟨x, y, hx, hy, hcur, Or.inr (Or.inr (Or.inl ⟨by omega, rfl,
        (hbit cur 8 (by simp)).mpr (Or.inr (Or.inl ⟨rfl, rfl⟩))⟩))⟩
    · refine ⟨x, y + 1, hx, by omega, rfl, Or.inr (Or.inr (Or.inr ⟨by omega, ?_, ?_⟩))⟩
      · rw [show y + 1 - 1 = y by omega, hcur]
      · exact (hbit (x * h + (y + 1)) 4 (by simp)).mpr (Or.inr (Or.inr ⟨rfl, rfl⟩))

/-- One carve adds exactly one counted edge (at the east/south endpoint of
the new passage). -/
theorem carve_count {w h : Nat} {grid g2 : List Nat} {cur x y d opp nidx : Nat}
    (hx : x < w) (hy : y < h) (hcur : cur = x * h + y)
    (hc : mazelib_carve_case w h x y d opp nidx)
    (hvis0 : grid.getD nidx 0 = 0) (hne : nidx ≠ cur)
    (hprev : grid.getD cur 0 &&& d = 0)
    (hg2 : ∀ j, g2.getD j 0 = if j = nidx then 0 ||| opp
        else if j = cur then grid.getD cur 0 ||| d else grid.getD j 0) :
    mazelib_edge_count w h g2 = mazelib_edge_count w h grid + 1 := by
  obtain ⟨hd4, hopp4, hnlt, _⟩ := carve_case_facts hx hy hc
  have hclt : cur < w * h := hcur ▸ cell_index_lt hx hy
  have hbit := carve_bit_iff hvis0 hne hd4 hopp4 hg2
  have hvbit : ∀ m, grid.getD nidx 0 &&& m = 0 := by
    intro m
    rw [hvis0]
    simp
  have key : ∃ e, e < w * h ∧
      ((if g2.getD e 0 &&& 2 ≠ 0 then 1 else 0) + (if g2.getD e 0 &&& 8 ≠ 0 then 1 else 0) =
        (if grid.getD e 0 &&& 2 ≠ 0 then 1 else 0) +
          (if grid.getD e 0 &&& 8 ≠ 0 then 1 else 0) + 1) ∧
      ∀ c, c ≠ e →
        (if g2.getD c 0 &&& 2 ≠ 0 then 1 else 0) + (if g2.getD c 0 &&& 8 ≠ 0 then 1 else 0) =
          (if grid.getD c 0 &&& 2 ≠ 0 then 1 else 0) +
            (if grid.getD c 0 &&& 8 ≠ 0 then 1 else 0) := by
    rcases hc with ⟨hdv, hov, hxne, hnix⟩ | ⟨hdv, hov, hxne, hnix⟩ |
      ⟨hdv, hov, hyne, hnix⟩ | ⟨hdv, hov, hyne, hnix⟩
    · -- west carve: new bit 2 appears at nidx
      refine ⟨nidx, hnlt, ?_, ?_⟩
      · have h2 : g2.getD nidx 0 &&& 2 ≠ 0 :=
          (hbit nidx 2 (by simp)).mpr (Or.inr (Or.inr ⟨rfl, hov⟩))
        have h8 : ¬g2.getD nidx 0 &&& 8 ≠ 0 := by
          rw [hbit nidx 8 (by simp)]
          rintro (hold | ⟨hc1, hb⟩ | ⟨_, hb⟩)
          · exact hold (hvbit 8)
          · exact hne (hc1 ▸ rfl)
          · omega
        rw [if_pos h2, if_neg h8, if_neg (fun hv => hv (hvbit 2)),
          if_neg (fun hv => hv (hvbit 8))]
      · intro c hcne
        have h2 : (g2.getD c 0 &&& 2 ≠ 0) ↔ (grid.getD c 0 &&& 2 ≠ 0) := by
          rw [hbit c 2 (by simp)]
          constructor
          · rintro (hold | ⟨_, hb⟩ | ⟨hc1, _⟩)
            · exact hold
            · omega
            · exact absurd hc1 hcne
          · exact Or.inl
        have h8 : (g2.getD c 0 &&& 8 ≠ 0) ↔ (grid.getD c 0 &&& 8 ≠ 0) := by
          rw [hbit c 8 (by simp)]
          constructor
          · rintro (hold | ⟨_, hb⟩ | ⟨hc1, _⟩)
            · exact hold
            · omega
            · exact absurd hc1 hcne
          · exact Or.inl
        rw [if_congr h2 rfl rfl, if_congr h8 rfl rfl]
    · -- east carve: new bit 2 appears at cur
      refine ⟨cur, hclt, ?_, ?_⟩
      · have h2 : g2.getD cur 0 &&& 2 ≠ 0 :=
          (hbit cur 2 (by simp)).mpr (Or.inr (Or.inl ⟨rfl, hdv⟩))
        have h8 : (g2.getD cur 0 &&& 8 ≠ 0) ↔ (grid.getD cur 0 &&& 8 ≠ 0) := by
          rw [hbit cur 8 (by simp)]
          constructor
          · rintro (hold | ⟨_, hb⟩ | ⟨hc1, _⟩)
            · exact hold
            · omega
            · exact absurd hc1.symm hne
          · exact Or.inl
        have hno2 : ¬grid.getD cur 0 &&& 2 ≠ 0 := fun hv => hv (by rw [← hdv]; exact hprev)
        rw [if_pos h2, if_congr h8 rfl rfl, if_neg hno2]
        omega
      · intro c hcne
        have h2 : (g2.getD c 0 &&& 2 ≠ 0) ↔ (grid.getD c 0 &&& 2 ≠ 0) := by
          rw [hbit c 2 (by simp)]
          constructor
          · rintro (hold | ⟨hc1, _⟩ | ⟨_, hb⟩)
            · exact hold
            · exact absurd hc1 hcne
            · omega
          · exact Or.inl
        have h8 : (g2.getD c 0 &&& 8 ≠ 0) ↔ (grid.getD c 0 &&& 8 ≠ 0) := by
          rw [hbit c 8 (by simp)]
          constructor
          · rintro (hold | ⟨_, hb⟩ | ⟨_, hb⟩)
            · exact hold
            · omega
            · omega
          · exact Or.inl
        rw [if_congr h2 rfl rfl, if_congr h8 rfl rfl]
    · -- north carve: new bit 8 appears at nidx
      refine ⟨nidx, hnlt, ?_, ?_⟩
      · have h8 : g2.getD nidx 0 &&& 8 ≠ 0 :=
          (hbit nidx 8 (by simp)).mpr (Or.inr (Or.inr ⟨rfl, hov⟩))
        have h2 : ¬g2.getD nidx 0 &&& 2 ≠ 0 := by
          rw [hbit nidx 2 (by simp)]
          rintro (hold | ⟨hc1, hb⟩ | ⟨_, hb⟩)
          · exact hold (hvbit 2)
          · exact hne (hc1 ▸ rfl)
          · omega
        rw [if_pos h8, if_neg h2, if_neg (fun hv => hv (hvbit 2)),
          if_neg (fun hv => hv (hvbit 8))]
      · intro c hcne
        have h2 : (g2.getD c 0 &&& 2 ≠ 0) ↔ (grid.getD c 0 &&& 2 ≠ 0) := by
          rw [hbit c 2 (by simp)]
          constructor
          · rintro (hold | ⟨_, hb⟩ | ⟨_, hb⟩)
            · exact hold
            · omega
            · omega
          · exact Or.inl
        have h8 : (g2.getD c 0 &&& 8 ≠ 0) ↔ (grid.getD c 0 &&& 8 ≠ 0) := by
          rw [hbit c 8 (by simp)]
          constructor
          · rintro (hold | ⟨_, hb⟩ | ⟨hc1, _⟩)
            · exact hold
            · omega
            · exact absurd hc1 hcne
          · exact Or.inl
        rw [if_congr h2 rfl rfl, if_congr h8 rfl rfl]
    · -- south carve: new bit 8 appears at cur
      refine ⟨cur, hclt, ?_, ?_⟩
      · have h8 : g2.getD cur 0 &&& 8 ≠ 0 :=
          (hbit cur 8 (by simp)).mpr (Or.inr (Or.inl ⟨rfl, hdv⟩))
        have h2 : (g2.getD cur 0 &&& 2 ≠ 0) ↔ (grid.getD cur 0 &&& 2 ≠ 0) := by
          rw [hbit cur 2 (by simp)]
          constructor
          · rintro (hold | ⟨_, hb⟩ | ⟨hc1, _⟩)
            · exact hold
            · omega
            · exact absurd hc1.symm hne
          · exact Or.inl
        have hno8 : ¬grid.getD cur 0 &&& 8 ≠ 0 := fun hv => hv (by rw [← hdv]; exact hprev)
        rw [if_pos h8, if_congr h2 rfl rfl, if_neg hno8]
      · intro c hcne
        have h2 : (g2.getD c 0 &&& 2 ≠ 0) ↔ (grid.getD c 0 &&& 2 ≠ 0) := by
          rw [hbit c 2 (by simp)]
          constructor
          · rintro (hold | ⟨_, hb⟩ | ⟨_, hb⟩)
            · exact hold
            · omega
            · omega
          · exact Or.inl
        have h8 : (g2.getD c 0 &&& 8 ≠ 0) ↔ (grid.getD c 0 &&& 8 ≠ 0) := by
          rw [hbit c 8 (by simp)]
          constructor
          · rintro (hold | ⟨hc1, _⟩ | ⟨_, hb⟩)
            · exact hold
            · exact absurd hc1 hcne
            · omega
          · exact Or.inl
        rw [if_congr h2 rfl rfl, if_congr h8 rfl rfl]
  obtain ⟨e, helt, hB, hA⟩ := key
  have he : e ∈ Finset.range (w * h) := Finset.mem_range.mpr helt
  unfold mazelib_edge_count
  rw [← Finset.sum_erase_add _ _ he, ← Finset.sum_erase_add _ _ he]
  have hcongr : Finset.sum ((Finset.range (w * h)).erase e)
      (fun c => (if g2.getD c 0 &&& 2 ≠ 0 then 1 else 0) +
        (if g2.getD c 0 &&& 8 ≠ 0 then 1 else 0)) =
      Finset.sum ((Finset.range (w * h)).erase e)
      (fun c => (if grid.getD c 0 &&& 2 ≠ 0 then 1 else 0) +
        (if grid.getD c 0 &&& 8 ≠ 0 then 1 else 0)) :=
    Finset.sum_congr rfl (fun c hcm => hA c (Finset.ne_of_mem_erase hcm))
  rw [hcongr, hB]
  omega

/-- The cleared grid is bit-symmetric. -/
theorem replicate_symm (w h n : Nat) : mazelib_grid_symm w h (List.replicate n 0) := by
  intro x y _ _
  constructor
  · intro _
    rw [getD_replicate_zero, getD_replicate_zero]
    simp
  · intro _
    rw [getD_replicate_zero, getD_replicate_zero]
    simp

/-- The cleared grid has no border bits. -/
theorem replicate_noborder (w h n : Nat) :
    mazelib_no_border_bits w h (List.replicate n 0) := by
  intro x y _ _
  refine ⟨?_, ?_, ?_, ?_⟩ <;> intro _ <;> rw [getD_replicate_zero] <;> rfl

/-- The cleared grid has no counted edges. -/
theorem replicate_edge_count (w h n : Nat) :
    mazelib_edge_count w h (List.replicate n 0) = 0 := by
  unfold mazelib_edge_count
  apply Finset.sum_eq_zero
  intro c _
  rw [getD_replicate_zero]
  simp

/-- The cleared grid has no visited cells. -/
theorem replicate_visited_set (w h n : Nat) :
    visitedSet w h (List.replicate n 0) = ∅ := by
  unfold visitedSet
  apply Finset.filter_false_of_mem
  intro c _
  rw [getD_replicate_zero]
  simp

/-- The visited set after one carve. -/
theorem carve_visited_set {w h : Nat} {grid g2 : List Nat} {cur d opp nidx : Nat}
    (hvis0 : grid.getD nidx 0 = 0) (hne : nidx ≠ cur)
    (hd4 : d = 1 ∨ d = 2 ∨ d = 4 ∨ d = 8) (hopp4 : opp = 1 ∨ opp = 2 ∨ opp = 4 ∨ opp = 8)
    (hg2 : ∀ j, g2.getD j 0 = if j = nidx then 0 ||| opp
        else if j = cur then grid.getD cur 0 ||| d else grid.getD j 0)
    (hclt : cur < w * h) (hnlt : nidx < w * h) :
    visitedSet w h g2 = insert nidx (insert cur (visitedSet w h grid)) := by
  have hviff := carve_visited_iff hvis0 hne hd4 hopp4 hg2
  ext c
  simp only [visitedSet, Finset.mem_filter, Finset.mem_range, Finset.mem_insert]
  constructor
  · rintro ⟨hlt, hv⟩
    rcases (hviff c).mp hv with hold | hcc | hcn
    · exact Or.inr (Or.inr ⟨hlt, hold⟩)
    · exact Or.inr (Or.inl hcc)
    · exact Or.inl hcn
  · rintro (rfl | rfl | ⟨hlt, hv⟩)
    · exact ⟨hnlt, (hviff c).mpr (Or.inr (Or.inr rfl))⟩
    · exact ⟨hclt, (hviff c).mpr (Or.inr (Or.inl rfl))⟩
    · exact ⟨hlt, (hviff c).mpr (Or.inl hv)⟩

/-- Carving from a selected frontier cell preserves the loop invariant (the
carved state is always in phase B). -/
theorem carve_preserves_inv {w h : Nat} (hw : 1 ≤ w) (hh : 1 ≤ h)
    {grid g2 cells : List Nat} {ci cur x y d opp nidx : Nat}
    (hinv : mazelib_inv w h grid cells)
    (hci : ci < cells.length)
    (hcur : cur = cells.getD ci 0)
    (hx : x < w) (hy : y < h) (hxy : cur = x * h + y)
    (hc : mazelib_carve_case w h x y d opp nidx)
    (hvis0 : grid.getD nidx 0 = 0)
    (hglen : g2.length = grid.length)
    (hg2 : ∀ j, g2.getD j 0 = if j = nidx then 0 ||| opp
        else if j = cur then grid.getD cur 0 ||| d else grid.getD j 0) :
    mazelib_phaseB w h g2 (cells ++ [nidx]) := by
  obtain ⟨hd4, hopp4, hnlt, hnne⟩ := carve_case_facts hx hy hc
  have hne : nidx ≠ cur := hxy ▸ hnne
  have hclt : cur < w * h := hxy ▸ cell_index_lt hx hy
  have hviff := carve_visited_iff hvis0 hne hd4 hopp4 hg2
  have hnew := carve_new_steps hx hy hxy hc hvis0 hne hg2
  have hmono := @carve_open_step_mono w h grid g2 cur d opp nidx hvis0 hne hd4 hopp4 hg2
  have hnidx_mem : nidx ∈ cells ++ [nidx] := by simp
  rcases hinv with ⟨hgrid, hcells⟩ | hB
  · -- phase A: the grid is all zero and the frontier is the start cell
    rcases hcells with ⟨c0, hc0lt, rfl⟩ | ⟨rfl, _, _⟩
    swap
    · exact absurd hci (by simp)
    have hci0 : ci = 0 := by
      simp at hci
      omega
    have hcur0 : cur = c0 := by
      rw [hcur, hci0]
      rfl
    have hnovis : ∀ c, ¬mazelib_visited grid c := by
      intro c
      unfold mazelib_visited
      rw [hgrid, getD_replicate_zero]
      simp
    refine ⟨?_, ?_, ?_, ?_, ?_, ?_, ?_, ?_, ?_⟩
    · rw [hglen, hgrid]
      simp
    · intro c hcmem
      rcases List.mem_append.mp hcmem with hcm | hcm
      · rw [List.mem_singleton.mp hcm]
        exact hcur0 ▸ hclt
      · rw [List.mem_singleton.mp hcm]
        exact hnlt
    · intro c hcmem
      rcases List.mem_append.mp hcmem with hcm | hcm
      · rw [List.mem_singleton.mp hcm]
        exact (hviff c0).mpr (Or.inr (Or.inl hcur0.symm))
      · rw [List.mem_singleton.mp hcm]
        exact (hviff nidx).mpr (Or.inr (Or.inr rfl))
    · intro c hclt2 hcv hcnm b hadj
      rcases (hviff c).mp hcv with hold | hcc | hcn
      · exact absurd hold (hnovis c)
      · exact absurd (by simp [hcc, hcur0] : c ∈ [c0] ++ [nidx]) hcnm
      · exact absurd (hcn ▸ hnidx_mem) hcnm
    · exact carve_symm hx hy hxy hc hvis0 hne hg2 (hgrid ▸ replicate_symm w h _)
    · exact carve_noborder hx hy hxy hc hvis0 hne hg2 (hgrid ▸ replicate_noborder w h _)
    · exact ⟨cur, hclt, (hviff cur).mpr (Or.inr (Or.inl rfl))⟩
    · intro a b halt hblt hav hbv
      have hacases : a = cur ∨ a = nidx := by
        rcases (hviff a).mp hav with hold | hcc | hcn
        · exact absurd hold (hnovis a)
        · exact Or.inl hcc
        · exact Or.inr hcn
      have hbcases : b = cur ∨ b = nidx := by
        rcases (hviff b).mp hbv with hold | hcc | hcn
        · exact absurd hold (hnovis b)
        · exact Or.inl hcc
        · exact Or.inr hcn
      rcases hacases with rfl | rfl <;> rcases hbcases with rfl | rfl
      · exact Relation.ReflTransGen.refl
      · exact Relation.ReflTransGen.single hnew.1
      · exact Relation.ReflTransGen.single hnew.2
      · exact Relation.ReflTransGen.refl
    · have hprev : grid.getD cur 0 &&& d = 0 := by
        rw [hgrid, getD_replicate_zero]
        simp
      rw [carve_count hx hy hxy hc hvis0 hne (hxy ▸ hprev) hg2,
        carve_visited_set hvis0 hne hd4 hopp4 hg2 hclt hnlt,
        hgrid, replicate_edge_count, replicate_visited_set]
      rw [Finset.card_insert_of_not_mem (by simp [hne]), Finset.card_insert_of_not_mem
        (by simp)]
      simp
  · -- phase B
    have hcmem : cur ∈ cells := hcur ▸ getD_mem_of_lt hci
    have hcvis : mazelib_visited grid cur := hB.cells_visited cur hcmem
    have hnvis : ¬mazelib_visited grid nidx := by
      unfold mazelib_visited
      rw [hvis0]
      simp
    have hnnm : nidx ∉ cells := fun hm => hnvis (hB.cells_visited nidx hm)
    refine ⟨?_, ?_, ?_, ?_, ?_, ?_, ?_, ?_, ?_⟩
    · rw [hglen]
      exact hB.size_eq
    · intro c hcm
      rcases List.mem_append.mp hcm with hcm2 | hcm2
      · exact hB.cells_lt c hcm2
      · rw [List.mem_singleton.mp hcm2]
        exact hnlt
    · intro c hcm
      rcases List.mem_append.mp hcm with hcm2 | hcm2
      · exact (hviff c).mpr (Or.inl (hB.cells_visited c hcm2))
      · rw [List.mem_singleton.mp hcm2]
        exact (hviff nidx).mpr (Or.inr (Or.inr rfl))
    · intro c hclt2 hcv hcnm b hadj
      have hcnm2 : c ∉ cells := fun hm => hcnm (List.mem_append_left _ hm)
      have hcold : mazelib_visited grid c := by
        rcases (hviff c).mp hcv with hold | hcc | hcn
        · exact hold
        · exact hcc ▸ hcvis
        · exact absurd (hcn ▸ hnidx_mem) hcnm
      exact (hviff b).mpr (Or.inl (hB.closure c hclt2 hcold hcnm2 b hadj))
    · exact carve_symm hx hy hxy hc hvis0 hne hg2 hB.symm
    · exact carve_noborder hx hy hxy hc hvis0 hne hg2 hB.noborder
    · exact ⟨cur, hclt, (hviff cur).mpr (Or.inl hcvis)⟩
    · intro a b halt hblt hav hbv
      have hrtg : ∀ {a2 b2 : Nat},
          Relation.ReflTransGen (mazelib_open_step w h grid) a2 b2 →
          Relation.ReflTransGen (mazelib_open_step w h g2) a2 b2 :=
        fun hx => Relation.ReflTransGen.mono (fun p q hs => hmono p q hs) hx
      have hto : ∀ c, c < w * h → mazelib_visited g2 c →
          Relation.ReflTransGen (mazelib_open_step w h g2) c cur := by
        intro c hcl hcv
        rcases (hviff c).mp hcv with hold | rfl | rfl
        · exact hrtg (hB.conn c cur hcl hclt hold hcvis)
        · exact Relation.ReflTransGen.refl
        · exact Relation.ReflTransGen.single hnew.2
      have hfrom : ∀ c, c < w * h → mazelib_visited g2 c →
          Relation.ReflTransGen (mazelib_open_step w h g2) cur c := by
        intro c hcl hcv
        rcases (hviff c).mp hcv with hold | rfl | rfl
        · exact hrtg (hB.conn cur c hclt hcl hcvis hold)
        · exact Relation.ReflTransGen.refl
        · exact Relation.ReflTransGen.single hnew.1
      exact Relation.ReflTransGen.trans (hto a halt hav) (hfrom b hblt hbv)
    · have hprev : grid.getD (x * h + y) 0 &&& d = 0 :=
        carve_no_prev hx hy hc hvis0 hB.symm
      rw [carve_count hx hy hxy hc hvis0 hne (hxy ▸ hprev) hg2,
        carve_visited_set hvis0 hne hd4 hopp4 hg2 hclt hnlt]
      have hcins : insert cur (visitedSet w h grid) = visitedSet w h grid := by
        apply Finset.insert_eq_self.mpr
        unfold visitedSet
        rw [Finset.mem_filter, Finset.mem_range]
        exact ⟨hclt, hcvis⟩
      rw [hcins, Finset.card_insert_of_not_mem (by
        unfold visitedSet
        rw [Finset.mem_filter]
        rintro ⟨_, hv⟩
        exact hnvis hv)]
      have := hB.count
      omega

/-- Removing a frontier cell with no unvisited neighbor preserves the loop
invariant. -/
theorem erase_preserves_inv {w h : Nat} (hw : 1 ≤ w) (hh : 1 ≤ h)
    {grid cells : List Nat} {ci cur x y : Nat}
    (hinv : mazelib_inv w h grid cells)
    (hci : ci < cells.length)
    (hcur : cur = cells.getD ci 0)
    (hx : x < w) (hy : y < h) (hxy : cur = x * h + y)
    (hrej :
      (x = 0 ∨ grid.getD ((x - 1) * h + y) 0 ≠ 0) ∧
      (x = w - 1 ∨ grid.getD ((x + 1) * h + y) 0 ≠ 0) ∧
      (y = 0 ∨ grid.getD (x * h + (y - 1)) 0 ≠ 0) ∧
      (y = h - 1 ∨ grid.getD (x * h + (y + 1)) 0 ≠ 0)) :
    mazelib_inv w h grid (cells.eraseIdx ci) := by
  rcases hinv with ⟨hgrid, hcells⟩ | hB
  · rcases hcells with ⟨c0, hc0lt, rfl⟩ | ⟨rfl, hw1, hh1⟩
    · left
      have hz : ∀ c, grid.getD c 0 = 0 := fun c => by rw [hgrid]; exact getD_replicate_zero ..
      refine ⟨hgrid, Or.inr ⟨?_, ?_, ?_⟩⟩
      · have hci0 : ci = 0 := by
          simp at hci
          omega
        rw [hci0]
        rfl
      · rcases hrej.1 with h1 | h1
        · rcases hrej.2.1 with h2 | h2
          · omega
          · exact absurd (hz _) h2
        · exact absurd (hz _) h1
      · rcases hrej.2.2.1 with h1 | h1
        · rcases hrej.2.2.2 with h2 | h2
          · omega
          · exact absurd (hz _) h2
        · exact absurd (hz _) h1
    · left
      exact ⟨hgrid, Or.inr ⟨by simp, hw1, hh1⟩⟩
  · right
    refine ⟨hB.size_eq, ?_, ?_, ?_, hB.symm, hB.noborder, hB.visited_nonempty,
      hB.conn, hB.count⟩
    · intro c hcm
      exact hB.cells_lt c (List.eraseIdx_subset cells ci hcm)
    · intro c hcm
      exact hB.cells_visited c (List.eraseIdx_subset cells ci hcm)
    · intro c hclt2 hcv hcnm b hadj
      by_cases hcmem : c ∈ cells
      · have hceq : c = cur := hcur ▸ eq_getD_of_not_mem_eraseIdx hcmem hcnm
        obtain ⟨x1, y1, hx1, hy1, hceq1, hbcase⟩ := hadj
        have hdec : x1 * h + y1 = x * h + y := hceq1.symm.trans (hceq.trans hxy)
        obtain ⟨hex, hey⟩ := cell_index_inj hy1 hy hdec
        rcases hbcase with ⟨hlt, rfl⟩ | ⟨hlt, rfl⟩ | ⟨hlt, rfl⟩ | ⟨hlt, rfl⟩
        · rcases hrej.2.1 with h1 | h1
          · omega
          · unfold mazelib_visited
            rw [hex, hey]
            exact h1
        · rcases hrej.1 with h1 | h1
          · omega
          · unfold mazelib_visited
            rw [hex, hey]
            exact h1
        · rcases hrej.2.2.2 with h1 | h1
          · omega
          · unfold mazelib_visited
            rw [hex, hey]
            exact h1
        · rcases hrej.2.2.1 with h1 | h1
          · omega
          · unfold mazelib_visited
            rw [hex, hey]
            exact h1
      · exact hB.closure c hclt2 hcv hcmem b hadj

/-- Let-free unfolding of one loop iteration. -/
theorem mazelib_step_eq (w h cell_bytes : Nat) (cb : mazelib_cell_selection_callback)
    (grid cells : List Nat) (prng : mazelib_prng) (fuel : Nat) :
    mazelib_step w h cell_bytes cb grid cells prng fuel =
      match (if cells.length > 1 then cb cells.length prng else some (0, prng)) with
      | none => none
      | some (cell_index, prng1) =>
        if cell_index ≥ cells.length then some (.abort prng1)
        else
          match mazelib_shuffle_directions prng1 fuel with
          | none => none
          | some (dirs, prng2) =>
            match mazelib_find_neighbor w h grid ((cells.getD cell_index 0 / h) % M32)
                ((cells.getD cell_index 0 % h) % M32) dirs with
            | some (d, opp, nidx) =>
              match listSetChecked grid (cells.getD cell_index 0)
                  (grid.getD (cells.getD cell_index 0) 0 ||| d) with
              | none => none
              | some g1 =>
                match listSetChecked g1 nidx (g1.getD nidx 0 ||| opp) with
                | none => none
                | some g2 =>
                  some (.cont g2 (cells ++ [nidx % 256 ^ cell_bytes]) prng2)
            | none => some (.cont grid (cells.eraseIdx cell_index) prng2) := rfl

/-- One completed loop iteration preserves the loop invariant. -/
theorem mazelib_step_preserves_inv {w h cell_bytes : Nat}
    {cb : mazelib_cell_selection_callback} {grid cells g2 c2 : List Nat}
    {prng p2 : mazelib_prng} {fuel : Nat}
    (hw : 1 ≤ w) (hh : 1 ≤ h) (hw32 : w < M32) (hh32 : h < M32)
    (hbytes : cell_bytes = mazelib_get_cell_bytes_required_for_dimensions w h)
    (hinv : mazelib_inv w h grid cells)
    (hstep : mazelib_step w h cell_bytes cb grid cells prng fuel = some (.cont g2 c2 p2)) :
    mazelib_inv w h g2 c2 := by
  rw [mazelib_step_eq] at hstep
  rcases hsel : (if cells.length > 1 then cb cells.length prng else some (0, prng)) with
    _ | ⟨ci, prng1⟩ <;> rw [hsel] at hstep <;> dsimp only at hstep
  · exact Option.noConfusion hstep
  by_cases hcige : ci ≥ cells.length
  · rw [if_pos hcige] at hstep
    injection hstep with hstep
    exact StepOut.noConfusion hstep
  · rw [if_neg hcige] at hstep
    push_neg at hcige
    have hcur_lt : cells.getD ci 0 < w * h := by
      rcases hinv with ⟨hgrid, hcells⟩ | hB
      · rcases hcells with ⟨c0, hc0lt, rfl⟩ | ⟨rfl, _, _⟩
        · have hci0 : ci = 0 := by
            simp at hcige
            omega
          rw [hci0]
          exact hc0lt
        · simp at hcige
      · exact hB.cells_lt _ (getD_mem_of_lt hcige)
    have hxw : cells.getD ci 0 / h < w := (Nat.div_lt_iff_lt_mul (by omega)).mpr hcur_lt
    have hyh : cells.getD ci 0 % h < h := Nat.mod_lt _ (by omega)
    have hxmod : (cells.getD ci 0 / h) % M32 = cells.getD ci 0 / h :=
      Nat.mod_eq_of_lt (lt_trans hxw hw32)
    have hymod : (cells.getD ci 0 % h) % M32 = cells.getD ci 0 % h :=
      Nat.mod_eq_of_lt (lt_trans hyh hh32)
    have hdm : cells.getD ci 0 = cells.getD ci 0 / h * h + cells.getD ci 0 % h := by
      have hdm2 := (Nat.div_add_mod (cells.getD ci 0) h).symm
      rw [Nat.mul_comm] at hdm2
      exact hdm2
    rw [hxmod, hymod] at hstep
    rcases hshuf : mazelib_shuffle_directions prng1 fuel with _ | ⟨dirs, prng2⟩ <;>
      rw [hshuf] at hstep <;> dsimp only at hstep
    · exact Option.noConfusion hstep
    have hdirs := shuffle_directions_mem hshuf
    have hsub : ∀ v ∈ dirs, v = 1 ∨ v = 2 ∨ v = 4 ∨ v = 8 := fun v hv => (hdirs v).mp hv
    rcases hfind : mazelib_find_neighbor w h grid (cells.getD ci 0 / h)
        (cells.getD ci 0 % h) dirs with _ | ⟨d, opp, nidx⟩ <;>
      rw [hfind] at hstep <;> dsimp only at hstep
    · injection hstep with hstep
      injection hstep with h1 h2 h3
      subst h1
      subst h2
      have hrj := find_neighbor_none hsub hfind
      exact erase_preserves_inv hw hh hinv hcige rfl hxw hyh hdm
        ⟨(hrj 1 ((hdirs 1).mpr (by simp))).1 rfl,
         (hrj 2 ((hdirs 2).mpr (by simp))).2.1 rfl,
         (hrj 4 ((hdirs 4).mpr (by simp))).2.2.1 rfl,
         (hrj 8 ((hdirs 8).mpr (by simp))).2.2.2 rfl⟩
    · rcases hset1 : listSetChecked grid (cells.getD ci 0)
          (grid.getD (cells.getD ci 0) 0 ||| d) with _ | g1 <;>
        rw [hset1] at hstep <;> dsimp only at hstep
      · exact Option.noConfusion hstep
      rcases hset2 : listSetChecked g1 nidx (g1.getD nidx 0 ||| opp) with _ | g2v <;>
        rw [hset2] at hstep <;> dsimp only at hstep
      · exact Option.noConfusion hstep
      injection hstep with hstep
      injection hstep with h1 h2 h3
      subst h1
      subst h2
      obtain ⟨hvis0, hcase⟩ := find_neighbor_some hsub hfind
      have hcasec : mazelib_carve_case w h (cells.getD ci 0 / h) (cells.getD ci 0 % h)
          d opp nidx := hcase
      obtain ⟨hd4, hopp4, hnlt, hnne⟩ := carve_case_facts hxw hyh hcasec
      have hne2 : nidx ≠ cells.getD ci 0 := by
        rw [hdm]
        exact hnne
      obtain ⟨hcl1, hlen1, hget1⟩ := listSetChecked_spec hset1
      obtain ⟨hcl2, hlen2, hget2⟩ := listSetChecked_spec hset2
      have hg2 : ∀ j, g2v.getD j 0 = if j = nidx then 0 ||| opp
          else if j = cells.getD ci 0 then grid.getD (cells.getD ci 0) 0 ||| d
          else grid.getD j 0 := by
        intro j
        rw [hget2 j]
        by_cases hj : j = nidx
        · rw [if_pos hj, if_pos hj, hget1 nidx, if_neg hne2, hvis0]
        · rw [if_neg hj, if_neg hj, hget1 j]
      have hfit : nidx % 256 ^ cell_bytes = nidx :=
        Nat.mod_eq_of_lt (lt_trans hnlt (hbytes ▸ mazelib_cells_fit hw32 hh32))
      rw [hfit]
      exact Or.inr (carve_preserves_inv hw hh hinv hcige rfl hxw hyh hdm hcasec hvis0
        (hlen2.trans hlen1) hg2)

/-- The loop invariant survives the whole loop: a completed loop ends in an
invariant state with an empty frontier. -/
theorem mazelib_loop_done_inv {w h cell_bytes : Nat} {cb : mazelib_cell_selection_callback}
    (hw : 1 ≤ w) (hh : 1 ≤ h) (hw32 : w < M32) (hh32 : h < M32)
    (hbytes : cell_bytes = mazelib_get_cell_bytes_required_for_dimensions w h) :
    ∀ {fuel : Nat} {grid cells : List Nat} {prng : mazelib_prng} {gF : List Nat}
      {pF : mazelib_prng},
      mazelib_inv w h grid cells →
      mazelib_loop w h cell_bytes cb fuel grid cells prng = some (.done gF pF) →
      mazelib_inv w h gF [] := by
  intro fuel
  induction fuel with
  | zero =>
    intro grid cells prng gF pF _ hloop
    exact Option.noConfusion hloop
  | succ n ih =>
    intro grid cells prng gF pF hinv hloop
    unfold mazelib_loop at hloop
    by_cases hcells : cells.length = 0
    · rw [if_pos hcells] at hloop
      injection hloop with hloop
      injection hloop with h1 h2
      subst h1
      rw [List.length_eq_zero] at hcells
      exact hcells ▸ hinv
    · rw [if_neg hcells] at hloop
      rcases hstepv : mazelib_step w h cell_bytes cb grid cells prng (n + 1) with
        _ | so <;> rw [hstepv] at hloop
      · dsimp only at hloop
        exact Option.noConfusion hloop
      · cases so with
        | cont g1 c1 p1 =>
          dsimp only at hloop
          exact ih (mazelib_step_preserves_inv hw hh hw32 hh32 hbytes hinv hstepv) hloop
        | abort p1 =>
          dsimp only at hloop
          exact Option.noConfusion hloop (fun h => LoopOut.noConfusion h)

/-- A nonempty set of visited cells closed under grid adjacency covers the
whole grid. -/
theorem visited_all_of_closed {w h : Nat} (hw : 1 ≤ w) (hh : 1 ≤ h) {grid : List Nat}
    (hcl : ∀ c, c < w * h → mazelib_visited grid c →
      ∀ b, mazelib_adjacent w h c b → mazelib_visited grid b)
    {r : Nat} (hr : r < w * h) (hrv : mazelib_visited grid r) :
    ∀ x y, x < w → y < h → mazelib_visited grid (x * h + y) := by
  have hstep_right : ∀ x y, x < w → y < h → x + 1 < w →
      mazelib_visited grid (x * h + y) → mazelib_visited grid ((x + 1) * h + y) := by
    intro x y hx hy hx1 hv
    exact hcl (x * h + y) (cell_index_lt hx hy) hv _ ⟨x, y, hx, hy, rfl, Or.inl ⟨hx1, rfl⟩⟩
  have hstep_left : ∀ x y, x < w → y < h → 1 ≤ x →
      mazelib_visited grid (x * h + y) → mazelib_visited grid ((x - 1) * h + y) := by
    intro x y hx hy hx1 hv
    exact hcl (x * h + y) (cell_index_lt hx hy) hv _
      ⟨x, y, hx, hy, rfl, Or.inr (Or.inl ⟨hx1, rfl⟩)⟩
  have hstep_down : ∀ x y, x < w → y < h → y + 1 < h →
      mazelib_visited grid (x * h + y) → mazelib_visited grid (x * h + (y + 1)) := by
    intro x y hx hy hy1 hv
    exact hcl (x * h + y) (cell_index_lt hx hy) hv _
      ⟨x, y, hx, hy, rfl, Or.inr (Or.inr (Or.inl ⟨hy1, rfl⟩))⟩
  have hstep_up : ∀ x y, x < w → y < h → 1 ≤ y →
      mazelib_visited grid (x * h + y) → mazelib_visited grid (x * h + (y - 1)) := by
    intro x y hx hy hy1 hv
    exact hcl (x * h + y) (cell_index_lt hx hy) hv _
      ⟨x, y, hx, hy, rfl, Or.inr (Or.inr (Or.inr ⟨hy1, rfl⟩))⟩
  have hrxw : r / h < w := (Nat.div_lt_iff_lt_mul (by omega)).mpr hr
  have hryh : r % h < h := Nat.mod_lt _ (by omega)
  have hrdec : r / h * h + r % h = r := by
    have hdm := Nat.div_add_mod r h
    rw [Nat.mul_comm] at hdm
    exact hdm
  have hcol : ∀ x, x < w → mazelib_visited grid (x * h + r % h) := by
    have hup : ∀ k, r / h + k < w → mazelib_visited grid ((r / h + k) * h + r % h) := by
      intro k
      induction k with
      | zero =>
        intro _
        simpa [hrdec] using hrv
      | succ n ih2 =>
        intro hlt
        have hn := ih2 (by omega)
        have hres := hstep_right (r / h + n) (r % h) (by omega) hryh (by omega) hn
        rw [show r / h + n + 1 = r / h + (n + 1) by omega] at hres
        exact hres
    have hdown : ∀ k, k ≤ r / h → mazelib_visited grid ((r / h - k) * h + r % h) := by
      intro k
      induction k with
      | zero =>
        intro _
        simpa [hrdec] using hrv
      | succ n ih2 =>
        intro hle
        have hn := ih2 (by omega)
        have hres := hstep_left (r / h - n) (r % h) (by omega) hryh (by omega) hn
        rw [show r / h - n - 1 = r / h - (n + 1) by omega] at hres
        exact hres
    intro x hxw2
    rcases le_or_lt (r / h) x with hle | hlt
    · have hres := hup (x - r / h) (by omega)
      rw [show r / h + (x - r / h) = x by omega] at hres
      exact hres
    · have hres := hdown (r / h - x) (by omega)
      rw [show r / h - (r / h - x) = x by omega] at hres
      exact hres
  intro x y hx hy
  have hbase := hcol x hx
  have hdown2 : ∀ k, r % h + k < h → mazelib_visited grid (x * h + (r % h + k)) := by
    intro k
    induction k with
    | zero =>
      intro _
      simpa using hbase
    | succ n ih2 =>
      intro hlt
      have hn := ih2 (by omega)
      have hres := hstep_down x (r % h + n) hx (by omega) (by omega) hn
      rw [show r % h + n + 1 = r % h + (n + 1) by omega] at hres
      exact hres
  have hup2 : ∀ k, k ≤ r % h → mazelib_visited grid (x * h + (r % h - k)) := by
    intro k
    induction k with
    | zero =>
      intro _
      simpa using hbase
    | succ n ih2 =>
      intro hle
      have hn := ih2 (by omega)
      have hres := hstep_up x (r % h - n) hx (by omega) (by omega) hn
      rw [show r % h - n - 1 = r % h - (n + 1) by omega] at hres
      exact hres
  rcases le_or_lt (r % h) y with hle | hlt
  · have hres := hdown2 (y - r % h) (by omega)
    rw [show r % h + (y - r % h) = y by omega] at hres
    exact hres
  · have hres := hup2 (r % h - y) (by omega)
    rw [show r % h - (r % h - y) = y by omega] at hres
    exact hres

/-- An invariant state with an empty frontier is a spanning tree: every cell
visited, symmetric border-respecting bits, `w*h - 1` counted edges, and full
connectivity. -/
theorem inv_empty_spanning {w h : Nat} (hw : 1 ≤ w) (hh : 1 ≤ h) {grid : List Nat}
    (hinv : mazelib_inv w h grid []) :
    grid.length = w * h ∧ mazelib_grid_symm w h grid ∧
      mazelib_no_border_bits w h grid ∧
      mazelib_edge_count w h grid = w * h - 1 ∧ mazelib_grid_connected w h grid := by
  rcases hinv with ⟨hgrid, hcells⟩ | hB
  · rcases hcells with ⟨c0, _, hc⟩ | ⟨_, hw1, hh1⟩
    · exact absurd hc.symm (by simp)
    · subst hw1
      subst hh1
      rw [hgrid]
      refine ⟨by simp, replicate_symm 1 1 (1 * 1), replicate_noborder 1 1 (1 * 1), by
        rw [replicate_edge_count], ?_⟩
      intro a b ha hb
      have ha0 : a = 0 := by omega
      have hb0 : b = 0 := by omega
      rw [ha0, hb0]
  · have hfull : ∀ c, c < w * h → mazelib_visited grid c := by
      obtain ⟨r, hr, hrv⟩ := hB.visited_nonempty
      have hcl : ∀ c, c < w * h → mazelib_visited grid c →
          ∀ b, mazelib_adjacent w h c b → mazelib_visited grid b :=
        fun c hc hv => hB.closure c hc hv (List.not_mem_nil c)
      intro c hc
      have hres := visited_all_of_closed hw hh hcl hr hrv (c / h) (c % h)
        ((Nat.div_lt_iff_lt_mul (by omega)).mpr hc) (Nat.mod_lt _ (by omega))
      have hdm := Nat.div_add_mod c h
      rw [Nat.mul_comm] at hdm
      rw [hdm] at hres
      exact hres
    refine ⟨hB.size_eq, hB.symm, hB.noborder, ?_, ?_⟩
    · have hset : visitedSet w h grid = Finset.range (w * h) := by
        unfold visitedSet
        apply Finset.filter_true_of_mem
        intro c hc
        exact hfull c (Finset.mem_range.mp hc)
      have hcount := hB.count
      rw [hset, Finset.card_range] at hcount
      omega
    · intro a b ha hb
      exact hB.conn a b ha hb (hfull a ha) (hfull b hb)

/-- Unfolding equation for `mazelib_generate_extended` in the compact
(non-blockwise) case, with the `let` bindings expanded. -/
theorem mazelib_generate_extended_eq (w h : Nat) (prng : mazelib_prng)
    (cb : mazelib_cell_selection_callback) (out : List Nat) (fuel : Nat) :
    mazelib_generate_extended w h (some prng) (some cb) false (some out) fuel =
      (if out.length < mazelib_get_required_buffer_size w h false then
        some (0, some prng, some out)
      else
        match mazelib_prng_next_in_range prng w fuel with
        | none => none
        | some (rx, prngA) =>
          match mazelib_prng_next_in_range prngA h fuel with
          | none => none
          | some (ry, prngB) =>
            match mazelib_loop w h (mazelib_get_cell_bytes_required_for_dimensions w h)
                cb fuel (List.replicate (w * h) 0)
                [mazelib_get_cell_index (rx % M32) (ry % M32) h %
                  256 ^ mazelib_get_cell_bytes_required_for_dimensions w h] prngB with
            | none => none
            | some (.aborted p) => some (0, some p, some out)
            | some (.done grid p) => some (w * h, some p, some grid)) := rfl

/-- C1: for every width ≥ 1 and height ≥ 1 (within the `uint32_t` argument
range), whenever `mazelib_generate_extended` succeeds (returns nonzero) with
blockwise false, the return value is `width*height` and the produced
`width*height` grid bytes, read as direction bitmasks, form an undirected
graph over all cells that is connected and has exactly `width*height - 1`
edges (a spanning tree), with symmetric connectivity between adjacent
cells and no direction bit pointing off the grid. -/
theorem C1_compact_spanning_tree {w h : Nat} (hw : 1 ≤ w) (hh : 1 ≤ h)
    (hw32 : w < M32) (hh32 : h < M32)
    {prng : mazelib_prng} {cb : mazelib_cell_selection_callback}
    {out : List Nat} {fuel r : Nat} {p2 : Option mazelib_prng}
    {gOpt : Option (List Nat)}
    (hres : mazelib_generate_extended w h (some prng) (some cb) false (some out) fuel
      = some (r, p2, gOpt)) (hr : r ≠ 0) :
    r = w * h ∧ ∃ g, gOpt = some g ∧ g.length = w * h ∧
      mazelib_grid_symm w h g ∧ mazelib_no_border_bits w h g ∧
      mazelib_edge_count w h g = w * h - 1 ∧ mazelib_grid_connected w h g := by
  rw [mazelib_generate_extended_eq] at hres
  by_cases hlen : out.length < mazelib_get_required_buffer_size w h false
  · rw [if_pos hlen] at hres
    injection hres with hres
    injection hres with h1 h2
    exact absurd h1.symm hr
  · rw [if_neg hlen] at hres
    rcases hrx : mazelib_prng_next_in_range prng w fuel with _ | ⟨rx, prngA⟩ <;>
      rw [hrx] at hres <;> dsimp only at hres
    · exact Option.noConfusion hres
    rcases hry : mazelib_prng_next_in_range prngA h fuel with _ | ⟨ry, prngB⟩ <;>
      rw [hry] at hres <;> dsimp only at hres
    · exact Option.noConfusion hres
    rcases hloop : mazelib_loop w h (mazelib_get_cell_bytes_required_for_dimensions w h)
        cb fuel (List.replicate (w * h) 0)
        [mazelib_get_cell_index (rx % M32) (ry % M32) h %
          256 ^ mazelib_get_cell_bytes_required_for_dimensions w h] prngB with
      _ | lo <;> rw [hloop] at hres
    · exact Option.noConfusion hres
    cases lo with
    | aborted p =>
      dsimp only at hres
      injection hres with hres
      injection hres with h1 h2
      exact absurd h1.symm hr
    | done grid p =>
      dsimp only at hres
      injection hres with hres
      injection hres with h1 h2
      injection h2 with h2a h2b
      have hc0lt : mazelib_get_cell_index (rx % M32) (ry % M32) h %
          256 ^ mazelib_get_cell_bytes_required_for_dimensions w h < w * h := by
        have hrxw : rx < w := mazelib_nir_lt hrx
        have hryh : ry < h := mazelib_nir_lt hry
        have hxm : rx % M32 = rx := Nat.mod_eq_of_lt (lt_trans hrxw hw32)
        have hym : ry % M32 = ry := Nat.mod_eq_of_lt (lt_trans hryh hh32)
        calc mazelib_get_cell_index (rx % M32) (ry % M32) h %
              256 ^ mazelib_get_cell_bytes_required_for_dimensions w h
            ≤ mazelib_get_cell_index (rx % M32) (ry % M32) h := Nat.mod_le _ _
          _ < w * h := by
              rw [hxm, hym]
              exact cell_index_lt hrxw hryh
      have hinv0 : mazelib_inv w h (List.replicate (w * h) 0)
          [mazelib_get_cell_index (rx % M32) (ry % M32) h %
            256 ^ mazelib_get_cell_bytes_required_for_dimensions w h] :=
        Or.inl ⟨rfl, Or.inl ⟨_, hc0lt, rfl⟩⟩
      have hfin := mazelib_loop_done_inv hw hh hw32 hh32 rfl hinv0 hloop
      have hspan := inv_empty_spanning hw hh hfin
      exact ⟨h1.symm, grid, h2b.symm, hspan.1, hspan.2.1, hspan.2.2.1,
        hspan.2.2.2.1, hspan.2.2.2.2⟩

theorem C1_compact_spanning_tree_witness :
    (4 : Nat) = 2 * 2 ∧ ∃ g, (some [10, 4, 9, 4] : Option (List Nat)) = some g ∧
      g.length = 2 * 2 ∧ mazelib_grid_symm 2 2 g ∧ mazelib_no_border_bits 2 2 g ∧
      mazelib_edge_count 2 2 g = 2 * 2 - 1 ∧ mazelib_grid_connected 2 2 g :=
  C1_compact_spanning_tree (by decide) (by decide) (by decide) (by decide)
    (show mazelib_generate_extended 2 2 (some (mazelib_prng_seed 1))
        (some (fun c p => some (c - 1, p))) false (some (List.replicate 8 0)) 100
      = some (4, some ⟨4595616120159276283, 16222085205729898607,
          2530949624332310186, 13987733838590140662⟩, some [10, 4, 9, 4]) by decide)
    (by decide)

/-- On a grid of two or more cells whose bytes are still all zero, a loop
iteration on a singleton frontier never consults the callback and never
backtracks: unless the PRNG fuel runs out it carves a passage, growing the
frontier to two entries. -/
theorem step_fresh_carves {w h B : Nat} {cb : mazelib_cell_selection_callback}
    {t : Nat} {prng : mazelib_prng} {fuel : Nat}
    (hw32 : w < M32) (hh : 1 ≤ h) (hh32 : h < M32) (hwh : 2 ≤ w * h)
    (ht : t < w * h) :
    mazelib_step w h B cb (List.replicate (w * h) 0) [t] prng fuel = none ∨
    ∃ g m p, mazelib_step w h B cb (List.replicate (w * h) 0) [t] prng fuel
      = some (.cont g [t, m] p) := by
  have hxw : t / h < w := (Nat.div_lt_iff_lt_mul (by omega)).mpr ht
  have hyh : t % h < h := Nat.mod_lt _ (by omega)
  have hxm : (t / h) % M32 = t / h := Nat.mod_eq_of_lt (lt_trans hxw hw32)
  have hym : (t % h) % M32 = t % h := Nat.mod_eq_of_lt (lt_trans hyh hh32)
  rw [mazelib_step_eq]
  simp only [List.length_singleton, gt_iff_lt, Nat.lt_irrefl, if_false,
    List.getD_cons_zero, ge_iff_le, Nat.le_zero, one_ne_zero, hxm, hym]
  rcases hsh : mazelib_shuffle_directions prng fuel with _ | ⟨dirs, prng2⟩
  · exact Or.inl rfl
  dsimp only
  have hsub : ∀ v ∈ dirs, v = 1 ∨ v = 2 ∨ v = 4 ∨ v = 8 :=
    fun v hv => (shuffle_directions_mem hsh v).mp hv
  rcases hfind : mazelib_find_neighbor w h (List.replicate (w * h) 0) (t / h) (t % h) dirs with
    _ | ⟨d, opp, nidx⟩
  · exfalso
    have hall := find_neighbor_none hsub hfind
    have h1 := (hall 1 ((shuffle_directions_mem hsh 1).mpr (Or.inl rfl))).1 rfl
    have h2 := (hall 2 ((shuffle_directions_mem hsh 2).mpr (Or.inr (Or.inl rfl)))).2.1 rfl
    have h4 := (hall 4 ((shuffle_directions_mem hsh 4).mpr
      (Or.inr (Or.inr (Or.inl rfl))))).2.2.1 rfl
    have h8 := (hall 8 ((shuffle_directions_mem hsh 8).mpr
      (Or.inr (Or.inr (Or.inr rfl))))).2.2.2 rfl
    rw [getD_replicate_zero] at h1 h2 h4 h8
    simp only [ne_eq, not_true_eq_false, or_false] at h1 h2 h4 h8
    have hw1 : w = 1 := by omega
    have hh1 : h = 1 := by omega
    rw [hw1, hh1] at hwh
    omega
  · dsimp only
    obtain ⟨-, hcase⟩ := find_neighbor_some hsub hfind
    have hnlt : nidx < w * h := by
      rcases hcase with ⟨_, _, hx0, hn⟩ | ⟨_, _, hxw1, hn⟩ | ⟨_, _, hy0, hn⟩ | ⟨_, _, hyh1, hn⟩
      · exact hn ▸ cell_index_lt (by omega) hyh
      · exact hn ▸ cell_index_lt (by omega) hyh
      · exact hn ▸ cell_index_lt hxw (by omega)
      · exact hn ▸ cell_index_lt hxw (by omega)
    have hset1 : listSetChecked (List.replicate (w * h) 0) t
        ((List.replicate (w * h) 0).getD t 0 ||| d)
        = some ((List.replicate (w * h) 0).set t
            ((List.replicate (w * h) 0).getD t 0 ||| d)) := by
      unfold listSetChecked
      rw [if_pos (by simpa using ht)]
    rw [hset1]
    dsimp only
    have hset2 : listSetChecked
        ((List.replicate (w * h) 0).set t ((List.replicate (w * h) 0).getD t 0 ||| d)) nidx
        (((List.replicate (w * h) 0).set t
            ((List.replicate (w * h) 0).getD t 0 ||| d)).getD nidx 0 ||| opp)
        = some (((List.replicate (w * h) 0).set t
            ((List.replicate (w * h) 0).getD t 0 ||| d)).set nidx
            (((List.replicate (w * h) 0).set t
              ((List.replicate (w * h) 0).getD t 0 ||| d)).getD nidx 0 ||| opp)) := by
      unfold listSetChecked
      rw [if_pos (by simpa using hnlt)]
    rw [hset2]
    dsimp only
    exact Or.inr ⟨_, nidx % 256 ^ B, prng2, rfl⟩

theorem C8_counterexample :
    (mazelib_generate_extended 1 1 (some (mazelib_prng_seed 0))
        (some (fun count p => some (count, p))) false (some (List.replicate 2 0)) 100).map
      (fun t => t.1) = some 1 := by decide

/-- Unfolding equation for the blockwise per-cell expansion, with the `let`
bindings expanded. -/
theorem mazelib_expand_cell_eq (h : Nat) (grid out : List Nat) (x y : Nat) :
    mazelib_expand_cell h grid out x y =
      match listSetChecked out (mazelib_get_cell_index ((2 * x + 1) % M32)
          ((2 * y + 1) % M32) ((2 * h + 1) % M32)) 0 with
      | none => none
      | some out1 =>
        match (if grid.getD (mazelib_get_cell_index x y h) 0 &&& 8 ≠ 0 then
                 listSetChecked out1 (mazelib_get_cell_index ((2 * x + 1) % M32)
                   (((2 * y + 1) % M32 + 1) % M32) ((2 * h + 1) % M32)) 0
               else some out1) with
        | none => none
        | some out2 =>
          if grid.getD (mazelib_get_cell_index x y h) 0 &&& 2 ≠ 0 then
            listSetChecked out2 (mazelib_get_cell_index (((2 * x + 1) % M32 + 1) % M32)
              ((2 * y + 1) % M32) ((2 * h + 1) % M32)) 0
          else some out2 := rfl

/-- The initial wall fill sets the first `n` bytes to 1 and leaves the rest
of the buffer unchanged; it succeeds exactly within the buffer. -/
theorem fill_walls_spec :
    ∀ {n : Nat} {out o : List Nat}, mazelib_fill_walls out n = some o →
      o.length = out.length ∧ n ≤ out.length ∧
        ∀ j, o.getD j 0 = if j < n then 1 else out.getD j 0 := by
  intro n
  induction n with
  | zero =>
    intro out o hfill
    injection hfill with hfill
    subst hfill
    exact ⟨rfl, Nat.zero_le _, fun j => by simp⟩
  | succ n ih =>
    intro out o hfill
    unfold mazelib_fill_walls at hfill
    rcases hset : listSetChecked out n 1 with _ | o1 <;> rw [hset] at hfill
    · exact Option.noConfusion hfill
    dsimp only at hfill
    obtain ⟨hi1, hl1, hv1⟩ := listSetChecked_spec hset
    obtain ⟨hl2, _, hv2⟩ := ih hfill
    refine ⟨hl2.trans hl1, by omega, ?_⟩
    intro j
    rw [hv2 j]
    by_cases hj : j < n
    · rw [if_pos hj, if_pos (by omega)]
    · rw [if_neg hj, hv1 j]
      by_cases hjn : j = n
      · rw [if_pos hjn, if_pos (by omega)]
      · rw [if_neg hjn, if_neg (by omega)]

/-- A successful per-cell expansion zeroes exactly the `expandWrites` indices
of its cell and preserves every other byte. -/
theorem expand_cell_spec {w h : Nat} {grid out o : List Nat} {x y : Nat}
    (hw31 : w < 2 ^ 31) (hh31 : h < 2 ^ 31) (hx : x < w) (hy : y < h)
    (hcell : mazelib_expand_cell h grid out x y = some o) :
    o.length = out.length ∧
    (∀ j, expandWrites h grid x y j → o.getD j 0 = 0) ∧
    (∀ j, ¬ expandWrites h grid x y j → o.getD j 0 = out.getD j 0) := by
  have hA : (2 * x + 1) % M32 = 2 * x + 1 := by unfold M32; omega
  have hB : (2 * y + 1) % M32 = 2 * y + 1 := by unfold M32; omega
  have hC : (2 * h + 1) % M32 = 2 * h + 1 := by unfold M32; omega
  rw [mazelib_expand_cell_eq, hA, hB, hC] at hcell
  have hD : (2 * y + 1 + 1) % M32 = 2 * y + 2 := by unfold M32; omega
  have hE : (2 * x + 1 + 1) % M32 = 2 * x + 2 := by unfold M32; omega
  rw [hD, hE] at hcell
  simp only [mazelib_get_cell_index] at hcell
  rcases hset1 : listSetChecked out ((2 * x + 1) * (2 * h + 1) + (2 * y + 1)) 0 with
    _ | out1 <;> rw [hset1] at hcell
  · exact Option.noConfusion hcell
  dsimp only at hcell
  obtain ⟨hi1, hl1, hv1⟩ := listSetChecked_spec hset1
  by_cases hs : grid.getD (x * h + y) 0 &&& 8 ≠ 0
  · rw [if_pos hs] at hcell
    rcases hset2 : listSetChecked out1 ((2 * x + 1) * (2 * h + 1) + (2 * y + 2)) 0 with
      _ | out2 <;> rw [hset2] at hcell
    · exact Option.noConfusion hcell
    dsimp only at hcell
    obtain ⟨hi2, hl2, hv2⟩ := listSetChecked_spec hset2
    by_cases he : grid.getD (x * h + y) 0 &&& 2 ≠ 0
    · rw [if_pos he] at hcell
      obtain ⟨hi3, hl3, hv3⟩ := listSetChecked_spec hcell
      refine ⟨by rw [hl3, hl2, hl1], ?_, ?_⟩
      · intro j hwj
        rcases hwj with h1 | ⟨_, h2⟩ | ⟨_, h3⟩
        · subst h1
          rw [hv3, hv2, hv1]
          simp
        · subst h2
          rw [hv3, hv2]
          simp
        · subst h3
          rw [hv3]
          simp
      · intro j hnw
        rw [hv3, hv2, hv1,
          if_neg (fun hj => hnw (Or.inr (Or.inr ⟨he, hj⟩))),
          if_neg (fun hj => hnw (Or.inr (Or.inl ⟨hs, hj⟩))),
          if_neg (fun hj => hnw (Or.inl hj))]
    · rw [if_neg he] at hcell
      injection hcell with hcell
      subst hcell
      refine ⟨by rw [hl2, hl1], ?_, ?_⟩
      · intro j hwj
        rcases hwj with h1 | ⟨_, h2⟩ | ⟨hbit, _⟩
        · subst h1
          rw [hv2, hv1]
          simp
        · subst h2
          rw [hv2]
          simp
        · exact absurd hbit he
      · intro j hnw
        rw [hv2, hv1,
          if_neg (fun hj => hnw (Or.inr (Or.inl ⟨hs, hj⟩))),
          if_neg (fun hj => hnw (Or.inl hj))]
  · have hnsm : (if grid.getD (x * h + y) 0 &&& 8 ≠ 0 then
        listSetChecked out1 ((2 * x + 1) * (2 * h + 1) + (2 * y + 2)) 0
      else some out1) = some out1 := if_neg hs
    rw [hnsm] at hcell
    dsimp only at hcell
    by_cases he : grid.getD (x * h + y) 0 &&& 2 ≠ 0
    · rw [if_pos he] at hcell
      obtain ⟨hi3, hl3, hv3⟩ := listSetChecked_spec hcell
      refine ⟨by rw [hl3, hl1], ?_, ?_⟩
      · intro j hwj
        rcases hwj with h1 | ⟨hbit, _⟩ | ⟨_, h3⟩
        · subst h1
          rw [hv3, hv1]
          simp
        · exact absurd hbit hs
        · subst h3
          rw [hv3]
          simp
      · intro j hnw
        rw [hv3, hv1,
          if_neg (fun hj => hnw (Or.inr (Or.inr ⟨he, hj⟩))),
          if_neg (fun hj => hnw (Or.inl hj))]
    · rw [if_neg he] at hcell
      injection hcell with hcell
      subst hcell
      refine ⟨hl1, ?_, ?_⟩
      · intro j hwj
        rcases hwj with h1 | ⟨hbit, _⟩ | ⟨hbit, _⟩
        · subst h1
          rw [hv1]
          simp
        · exact absurd hbit hs
        · exact absurd hbit he
      · intro j hnw
        rw [hv1, if_neg (fun hj => hnw (Or.inl hj))]

/-- The inner blockwise loop zeroes exactly the `expandWrites` indices of the
cells `(x, y0) … (x, y0+k-1)` and preserves every other byte. -/
theorem expand_col_spec {w h : Nat} {grid : List Nat} {x : Nat}
    (hw31 : w < 2 ^ 31) (hh31 : h < 2 ^ 31) (hx : x < w) :
    ∀ {k y0 : Nat} {out o : List Nat}, y0 + k ≤ h →
      mazelib_expand_col h grid x out y0 k = some o →
      o.length = out.length ∧
      (∀ j, (∃ y, y0 ≤ y ∧ y < y0 + k ∧ expandWrites h grid x y j) → o.getD j 0 = 0) ∧
      (∀ j, (∀ y, y0 ≤ y → y < y0 + k → ¬ expandWrites h grid x y j) →
        o.getD j 0 = out.getD j 0) := by
  intro k
  induction k with
  | zero =>
    intro y0 out o hle hcol
    injection hcol with hcol
    subst hcol
    exact ⟨rfl, fun j ⟨y, hy1, hy2, _⟩ => absurd hy2 (by omega), fun j _ => rfl⟩
  | succ n ih =>
    intro y0 out o hle hcol
    unfold mazelib_expand_col at hcol
    rcases hcell : mazelib_expand_cell h grid out x y0 with _ | o1 <;> rw [hcell] at hcol
    · exact Option.noConfusion hcol
    dsimp only at hcol
    obtain ⟨hl1, hw1, hp1⟩ := expand_cell_spec hw31 hh31 hx (by omega) hcell
    obtain ⟨hl2, hw2, hp2⟩ := ih (by omega) hcol
    refine ⟨hl2.trans hl1, ?_, ?_⟩
    · rintro j ⟨y, hy1, hy2, hwj⟩
      by_cases hrest : ∃ y2, y0 + 1 ≤ y2 ∧ y2 < y0 + 1 + n ∧ expandWrites h grid x y2 j
      · exact hw2 j hrest
      · push_neg at hrest
        have hy0 : y = y0 := by
          by_contra hne
          exact hrest y (by omega) (by omega) hwj
        rw [hp2 j (fun y2 h1 h2 => hrest y2 h1 h2)]
        exact hw1 j (hy0 ▸ hwj)
    · intro j hnone
      rw [hp2 j (fun y2 h1 h2 => hnone y2 (by omega) (by omega))]
      exact hp1 j (hnone y0 le_rfl (by omega))

/-- The outer blockwise loop zeroes exactly the `expandWrites` indices of the
columns `x0 … x0+k-1` and preserves every other byte. -/
theorem expand_all_spec {w h : Nat} {grid : List Nat}
    (hw31 : w < 2 ^ 31) (hh31 : h < 2 ^ 31) :
    ∀ {k x0 : Nat} {out o : List Nat}, x0 + k ≤ w →
      mazelib_expand_all h grid out x0 k = some o →
      o.length = out.length ∧
      (∀ j, (∃ x y, x0 ≤ x ∧ x < x0 + k ∧ y < h ∧ expandWrites h grid x y j) →
        o.getD j 0 = 0) ∧
      (∀ j, (∀ x y, x0 ≤ x → x < x0 + k → y < h → ¬ expandWrites h grid x y j) →
        o.getD j 0 = out.getD j 0) := by
  intro k
  induction k with
  | zero =>
    intro x0 out o hle hall
    injection hall with hall
    subst hall
    exact ⟨rfl, fun j ⟨x, y, hx1, hx2, _, _⟩ => absurd hx2 (by omega), fun j _ => rfl⟩
  | succ n ih =>
    intro x0 out o hle hall
    unfold mazelib_expand_all at hall
    rcases hcol : mazelib_expand_col h grid x0 out 0 h with _ | o1 <;> rw [hcol] at hall
    · exact Option.noConfusion hall
    dsimp only at hall
    obtain ⟨hl1, hw1, hp1⟩ := expand_col_spec hw31 hh31 (show x0 < w by omega)
      (show 0 + h ≤ h by omega) hcol
    obtain ⟨hl2, hw2, hp2⟩ := ih (by omega) hall
    refine ⟨hl2.trans hl1, ?_, ?_⟩
    · rintro j ⟨x, y, hx1, hx2, hyh, hwj⟩
      by_cases hrest : ∃ x2 y2, x0 + 1 ≤ x2 ∧ x2 < x0 + 1 + n ∧ y2 < h ∧
          expandWrites h grid x2 y2 j
      · exact hw2 j hrest
      · push_neg at hrest
        have hx0 : x = x0 := by
          by_contra hne
          exact hrest x y (by omega) (by omega) hyh hwj
        rw [hp2 j (fun x2 y2 h1 h2 h3 => hrest x2 y2 h1 h2 h3)]
        exact hw1 j ⟨y, by omega, by omega, hx0 ▸ hwj⟩
    · intro j hnone
      rw [hp2 j (fun x2 y2 h1 h2 h3 => hnone x2 y2 (by omega) (by omega) h3)]
      exact hp1 j (fun y2 _ hy2 => hnone x0 y2 le_rfl (by omega) (by omega))

/-- Unfolding equation for the blockwise post-pass, with the `let` binding
expanded. -/
theorem mazelib_blockwise_expand_eq (w h : Nat) (grid out : List Nat) :
    mazelib_blockwise_expand w h grid out =
      match mazelib_fill_walls out (((2 * w + 1) * (2 * h + 1)) % M64) with
      | none => none
      | some out1 =>
        match mazelib_expand_all h grid out1 0 w with
        | none => none
        | some out2 => some (((2 * w + 1) * (2 * h + 1)) % M64, out2) := rfl

/-- Unfolding equation for `mazelib_generate_extended` in the blockwise case,
with the `let` bindings expanded. -/
theorem mazelib_generate_extended_blockwise_eq (w h : Nat) (prng : mazelib_prng)
    (cb : mazelib_cell_selection_callback) (out : List Nat) (fuel : Nat) :
    mazelib_generate_extended w h (some prng) (some cb) true (some out) fuel =
      (if out.length < mazelib_get_required_buffer_size w h true then
        some (0, some prng, some out)
      else
        match mazelib_prng_next_in_range prng w fuel with
        | none => none
        | some (rx, prngA) =>
          match mazelib_prng_next_in_range prngA h fuel with
          | none => none
          | some (ry, prngB) =>
            match mazelib_loop w h (mazelib_get_cell_bytes_required_for_dimensions w h)
                cb fuel (List.replicate (w * h) 0)
                [mazelib_get_cell_index (rx % M32) (ry % M32) h %
                  256 ^ mazelib_get_cell_bytes_required_for_dimensions w h] prngB with
            | none => none
            | some (.aborted p) => some (0, some p, some out)
            | some (.done grid p) =>
              match mazelib_blockwise_expand w h grid out with
              | none => none
              | some (res, out2) => some (res, some p, some out2)) := rfl

/-- Full characterization of a successful blockwise post-pass over a compact
grid whose bits respect the border and carve exactly `w*h - 1` passages: the
byte count is `(2w+1)*(2h+1)`, the wall grid is 0/1-valued with walled
borders and open interior cells, and the open cells number
`w*h + (w*h - 1)`. -/
theorem blockwise_expand_spec {w h : Nat} {grid out : List Nat} {res : Nat}
    {outF : List Nat}
    (hw : 1 ≤ w) (hh : 1 ≤ h) (hw31 : w < 2 ^ 31) (hh31 : h < 2 ^ 31)
    (hnob : mazelib_no_border_bits w h grid)
    (hedge : mazelib_edge_count w h grid = w * h - 1)
    (hbw : mazelib_blockwise_expand w h grid out = some (res, outF)) :
    res = (2 * w + 1) * (2 * h + 1) ∧
    (∀ j, j < (2 * w + 1) * (2 * h + 1) → outF.getD j 0 = 0 ∨ outF.getD j 0 = 1) ∧
    (∀ nx ny, nx < 2 * w + 1 → ny < 2 * h + 1 →
      (nx = 0 ∨ nx = 2 * w ∨ ny = 0 ∨ ny = 2 * h) →
      outF.getD (nx * (2 * h + 1) + ny) 0 = 1) ∧
    (∀ x y, x < w → y < h →
      outF.getD ((2 * x + 1) * (2 * h + 1) + (2 * y + 1)) 0 = 0) ∧
    ((Finset.range ((2 * w + 1) * (2 * h + 1))).filter
        (fun j => outF.getD j 0 = 0)).card = w * h + (w * h - 1) := by
  have hN64 : (2 * w + 1) * (2 * h + 1) < M64 := by
    have h1 : 2 * w + 1 < M32 := by unfold M32; omega
    have h2 : 2 * h + 1 < M32 := by unfold M32; omega
    calc (2 * w + 1) * (2 * h + 1) < M32 * M32 := Nat.mul_lt_mul'' h1 h2
      _ = M64 := by norm_num [M32, M64]
  rw [mazelib_blockwise_expand_eq, Nat.mod_eq_of_lt hN64] at hbw
  rcases hfill : mazelib_fill_walls out ((2 * w + 1) * (2 * h + 1)) with _ | out1 <;>
    rw [hfill] at hbw
  · exact Option.noConfusion hbw
  dsimp only at hbw
  rcases hall : mazelib_expand_all h grid out1 0 w with _ | oF <;> rw [hall] at hbw
  · exact Option.noConfusion hbw
  dsimp only at hbw
  injection hbw with hbw
  injection hbw with hres1 hres2
  subst hres2
  obtain ⟨hflen, hfN, hfval⟩ := fill_walls_spec hfill
  obtain ⟨halen, hawrite, hapres⟩ := expand_all_spec hw31 hh31 (by omega) hall
  have hval0 : ∀ j, (∃ x y, x < w ∧ y < h ∧ expandWrites h grid x y j) →
      oF.getD j 0 = 0 := by
    rintro j ⟨x, y, hx, hy, hwj⟩
    exact hawrite j ⟨x, y, Nat.zero_le x, by omega, hy, hwj⟩
  have hval1 : ∀ j, j < (2 * w + 1) * (2 * h + 1) →
      (∀ x y, x < w → y < h → ¬ expandWrites h grid x y j) → oF.getD j 0 = 1 := by
    intro j hj hno
    rw [hapres j (fun x y h1 h2 h3 => hno x y (by omega) h3 ), hfval j, if_pos hj]
  have hdec : ∀ nx ny nx2 ny2 : Nat, ny < 2 * h + 1 → ny2 < 2 * h + 1 →
      nx * (2 * h + 1) + ny = nx2 * (2 * h + 1) + ny2 → nx = nx2 ∧ ny = ny2 :=
    fun nx ny nx2 ny2 hn1 hn2 heq => cell_index_inj hn1 hn2 heq
  have hdiv : ∀ c, c < w * h → c / h < w :=
    fun c hc => (Nat.div_lt_iff_lt_mul (by omega)).mpr hc
  have hmod : ∀ c : Nat, c % h < h := fun c => Nat.mod_lt _ (by omega)
  have hdm : ∀ c : Nat, c / h * h + c % h = c := by
    intro c
    rw [Nat.mul_comm]
    exact Nat.div_add_mod c h
  have h01 : ∀ j, j < (2 * w + 1) * (2 * h + 1) →
      oF.getD j 0 = 0 ∨ oF.getD j 0 = 1 := by
    intro j hj
    by_cases hhit : ∃ x y, x < w ∧ y < h ∧ expandWrites h grid x y j
    · exact Or.inl (hval0 j hhit)
    · push_neg at hhit
      exact Or.inr (hval1 j hj (fun x y hx hy => hhit x y hx hy))
  have hborder : ∀ nx ny, nx < 2 * w + 1 → ny < 2 * h + 1 →
      (nx = 0 ∨ nx = 2 * w ∨ ny = 0 ∨ ny = 2 * h) →
      oF.getD (nx * (2 * h + 1) + ny) 0 = 1 := by
    intro nx ny hnx hny hb
    apply hval1 _ (cell_index_lt hnx hny)
    intro x y hx hy hwj
    rcases hwj with h1 | ⟨hbit, h2⟩ | ⟨hbit, h3⟩
    · obtain ⟨he1, he2⟩ := hdec nx ny _ _ hny (by omega) h1
      omega
    · obtain ⟨he1, he2⟩ := hdec nx ny _ _ hny (by omega) h2
      rcases hb with hb | hb | hb | hb
      · omega
      · omega
      · omega
      · exact hbit ((hnob x y hx hy).2.2.2 (by omega))
    · obtain ⟨he1, he2⟩ := hdec nx ny _ _ hny (by omega) h3
      rcases hb with hb | hb | hb | hb
      · omega
      · exact hbit ((hnob x y hx hy).2.1 (by omega))
      · omega
      · omega
  have hinterior : ∀ x y, x < w → y < h →
      oF.getD ((2 * x + 1) * (2 * h + 1) + (2 * y + 1)) 0 = 0 :=
    fun x y hx hy => hval0 _ ⟨x, y, hx, hy, Or.inl rfl⟩
  refine ⟨hres1.symm, h01, hborder, hinterior, ?_⟩
  have hsetEq : (Finset.range ((2 * w + 1) * (2 * h + 1))).filter
      (fun j => oF.getD j 0 = 0)
      = (Finset.range (w * h)).image
          (fun c => (2 * (c / h) + 1) * (2 * h + 1) + (2 * (c % h) + 1))
        ∪ (((Finset.range (w * h)).filter (fun c => grid.getD c 0 &&& 8 ≠ 0)).image
            (fun c => (2 * (c / h) + 1) * (2 * h + 1) + (2 * (c % h) + 2))
          ∪ ((Finset.range (w * h)).filter (fun c => grid.getD c 0 &&& 2 ≠ 0)).image
            (fun c => (2 * (c / h) + 2) * (2 * h + 1) + (2 * (c % h) + 1))) := by
    ext j
    simp only [Finset.mem_filter, Finset.mem_range, Finset.mem_union, Finset.mem_image]
    constructor
    · rintro ⟨hj, hvz⟩
      by_cases hhit : ∃ x y, x < w ∧ y < h ∧ expandWrites h grid x y j
      · obtain ⟨x, y, hx, hy, hwj⟩ := hhit
        have hc : x * h + y < w * h := cell_index_lt hx hy
        have hcd : (x * h + y) / h = x := cell_decomp_div x y h hy
        have hcm : (x * h + y) % h = y := cell_decomp_mod x y h hy
        rcases hwj with h1 | ⟨hbit, h2⟩ | ⟨hbit, h3⟩
        · exact Or.inl ⟨x * h + y, hc, by rw [hcd, hcm, h1]⟩
        · refine Or.inr (Or.inl ⟨x * h + y, ⟨hc, ?_⟩, ?_⟩)
          · rw [hcd, hcm] at *
            simpa [mazelib_get_cell_index] using hbit
          · rw [hcd, hcm, h2]
        · refine Or.inr (Or.inr ⟨x * h + y, ⟨hc, ?_⟩, ?_⟩)
          · rw [hcd, hcm] at *
            simpa [mazelib_get_cell_index] using hbit
          · rw [hcd, hcm, h3]
      · push_neg at hhit
        have hone := hval1 j hj (fun x y hx hy => hhit x y hx hy)
        exact absurd (hvz.symm.trans hone) (by decide)
    · rintro (⟨c, hc, hcj⟩ | ⟨c, ⟨hc, hbit⟩, hcj⟩ | ⟨c, ⟨hc, hbit⟩, hcj⟩)
      · subst hcj
        refine ⟨cell_index_lt (by have := hdiv c hc; omega) (by have := hmod c; omega), ?_⟩
        exact hval0 _ ⟨c / h, c % h, hdiv c hc, hmod c, Or.inl rfl⟩
      · subst hcj
        refine ⟨cell_index_lt (by have := hdiv c hc; omega) (by have := hmod c; omega), ?_⟩
        refine hval0 _ ⟨c / h, c % h, hdiv c hc, hmod c, Or.inr (Or.inl ⟨?_, rfl⟩)⟩
        rw [hdm c]
        exact hbit
      · subst hcj
        refine ⟨cell_index_lt (by have := hdiv c hc; omega) (by have := hmod c; omega), ?_⟩
        refine hval0 _ ⟨c / h, c % h, hdiv c hc, hmod c, Or.inr (Or.inr ⟨?_, rfl⟩)⟩
        rw [hdm c]
        exact hbit
  rw [hsetEq]
  have hAinj : Set.InjOn (fun c => (2 * (c / h) + 1) * (2 * h + 1) + (2 * (c % h) + 1))
      (Finset.range (w * h)) := by
    intro a ha b hb heq
    obtain ⟨h1, h2⟩ := hdec _ _ _ _ (by have := hmod a; omega) (by have := hmod b; omega) heq
    have e1 : a / h = b / h := by omega
    have e2 : a % h = b % h := by omega
    calc a = a / h * h + a % h := (hdm a).symm
      _ = b / h * h + b % h := by rw [e1, e2]
      _ = b := hdm b
  have hBinj : Set.InjOn (fun c => (2 * (c / h) + 1) * (2 * h + 1) + (2 * (c % h) + 2))
      ((Finset.range (w * h)).filter (fun c => grid.getD c 0 &&& 8 ≠ 0)) := by
    intro a ha b hb heq
    obtain ⟨h1, h2⟩ := hdec _ _ _ _ (by have := hmod a; omega) (by have := hmod b; omega) heq
    have e1 : a / h = b / h := by omega
    have e2 : a % h = b % h := by omega
    calc a = a / h * h + a % h := (hdm a).symm
      _ = b / h * h + b % h := by rw [e1, e2]
      _ = b := hdm b
  have hCinj : Set.InjOn (fun c => (2 * (c / h) + 2) * (2 * h + 1) + (2 * (c % h) + 1))
      ((Finset.range (w * h)).filter (fun c => grid.getD c 0 &&& 2 ≠ 0)) := by
    intro a ha b hb heq
    obtain ⟨h1, h2⟩ := hdec _ _ _ _ (by have := hmod a; omega) (by have := hmod b; omega) heq
    have e1 : a / h = b / h := by omega
    have e2 : a % h = b % h := by omega
    calc a = a / h * h + a % h := (hdm a).symm
      _ = b / h * h + b % h := by rw [e1, e2]
      _ = b := hdm b
  have hdBC : Disjoint
      (((Finset.range (w * h)).filter (fun c => grid.getD c 0 &&& 8 ≠ 0)).image
        (fun c => (2 * (c / h) + 1) * (2 * h + 1) + (2 * (c % h) + 2)))
      (((Finset.range (w * h)).filter (fun c => grid.getD c 0 &&& 2 ≠ 0)).image
        (fun c => (2 * (c / h) + 2) * (2 * h + 1) + (2 * (c % h) + 1))) := by
    rw [Finset.disjoint_left]
    rintro j hjB hjC
    obtain ⟨a, ha, haj⟩ := Finset.mem_image.mp hjB
    obtain ⟨b, hb, hbj⟩ := Finset.mem_image.mp hjC
    obtain ⟨h1, h2⟩ := hdec _ _ _ _ (by have := hmod a; omega) (by have := hmod b; omega)
      (haj.trans hbj.symm)
    omega
  have hdABC : Disjoint
      ((Finset.range (w * h)).image
        (fun c => (2 * (c / h) + 1) * (2 * h + 1) + (2 * (c % h) + 1)))
      ((((Finset.range (w * h)).filter (fun c => grid.getD c 0 &&& 8 ≠ 0)).image
          (fun c => (2 * (c / h) + 1) * (2 * h + 1) + (2 * (c % h) + 2)))
        ∪ (((Finset.range (w * h)).filter (fun c => grid.getD c 0 &&& 2 ≠ 0)).image
          (fun c => (2 * (c / h) + 2) * (2 * h + 1) + (2 * (c % h) + 1)))) := by
    rw [Finset.disjoint_left]
    rintro j hjA hjBC
    obtain ⟨a, ha, haj⟩ := Finset.mem_image.mp hjA
    rcases Finset.mem_union.mp hjBC with hjB | hjC
    · obtain ⟨b, hb, hbj⟩ := Finset.mem_image.mp hjB
      obtain ⟨h1, h2⟩ := hdec _ _ _ _ (by have := hmod a; omega) (by have := hmod b; omega)
        (haj.trans hbj.symm)
      omega
    · obtain ⟨b, hb, hbj⟩ := Finset.mem_image.mp hjC
      obtain ⟨h1, h2⟩ := hdec _ _ _ _ (by have := hmod a; omega) (by have := hmod b; omega)
        (haj.trans hbj.symm)
      omega
  rw [Finset.card_union_of_disjoint hdABC, Finset.card_union_of_disjoint hdBC,
    Finset.card_image_of_injOn hAinj, Finset.card_image_of_injOn hBinj,
    Finset.card_image_of_injOn hCinj, Finset.card_range]
  have hedgesplit : mazelib_edge_count w h grid
      = ((Finset.range (w * h)).filter (fun c => grid.getD c 0 &&& 2 ≠ 0)).card
        + ((Finset.range (w * h)).filter (fun c => grid.getD c 0 &&& 8 ≠ 0)).card := by
    unfold mazelib_edge_count
    rw [Finset.sum_add_distrib]
    congr 1 <;> rw [Finset.card_filter]
  omega

/-- C3: for every width ≥ 1 and height ≥ 1 below `2^31` (the range in which
the expansion's `uint32_t` coordinate arithmetic cannot wrap), whenever
generation succeeds (returns nonzero) with blockwise set, the return value is
`(2*width+1)*(2*height+1)` and the first `(2*width+1)*(2*height+1)` output
bytes form a wall grid in which every byte is 0 or 1, every border cell is 1
(wall), every cell at `(2x+1, 2y+1)` for `x < width`, `y < height` is 0
(open), and the total number of open cells is
`width*height + (width*height - 1)`. -/
theorem C3_blockwise_well_formed {w h : Nat} (hw : 1 ≤ w) (hh : 1 ≤ h)
    (hw31 : w < 2 ^ 31) (hh31 : h < 2 ^ 31)
    {prng : mazelib_prng} {cb : mazelib_cell_selection_callback}
    {out : List Nat} {fuel r : Nat} {p2 : Option mazelib_prng}
    {gOpt : Option (List Nat)}
    (hres : mazelib_generate_extended w h (some prng) (some cb) true (some out) fuel
      = some (r, p2, gOpt)) (hr : r ≠ 0) :
    r = (2 * w + 1) * (2 * h + 1) ∧ ∃ wall, gOpt = some wall ∧
      (∀ j, j < (2 * w + 1) * (2 * h + 1) → wall.getD j 0 = 0 ∨ wall.getD j 0 = 1) ∧
      (∀ nx ny, nx < 2 * w + 1 → ny < 2 * h + 1 →
        (nx = 0 ∨ nx = 2 * w ∨ ny = 0 ∨ ny = 2 * h) →
        wall.getD (nx * (2 * h + 1) + ny) 0 = 1) ∧
      (∀ x y, x < w → y < h →
        wall.getD ((2 * x + 1) * (2 * h + 1) + (2 * y + 1)) 0 = 0) ∧
      ((Finset.range ((2 * w + 1) * (2 * h + 1))).filter
          (fun j => wall.getD j 0 = 0)).card = w * h + (w * h - 1) := by
  have hw32 : w < M32 := lt_trans hw31 (by norm_num [M32])
  have hh32 : h < M32 := lt_trans hh31 (by norm_num [M32])
  rw [mazelib_generate_extended_blockwise_eq] at hres
  by_cases hlen : out.length < mazelib_get_required_buffer_size w h true
  · rw [if_pos hlen] at hres
    injection hres with hres
    injection hres with h1 h2
    exact absurd h1.symm hr
  · rw [if_neg hlen] at hres
    rcases hrx : mazelib_prng_next_in_range prng w fuel with _ | ⟨rx, prngA⟩ <;>
      rw [hrx] at hres <;> dsimp only at hres
    · exact Option.noConfusion hres
    rcases hry : mazelib_prng_next_in_range prngA h fuel with _ | ⟨ry, prngB⟩ <;>
      rw [hry] at hres <;> dsimp only at hres
    · exact Option.noConfusion hres
    rcases hloop : mazelib_loop w h (mazelib_get_cell_bytes_required_for_dimensions w h)
        cb fuel (List.replicate (w * h) 0)
        [mazelib_get_cell_index (rx % M32) (ry % M32) h %
          256 ^ mazelib_get_cell_bytes_required_for_dimensions w h] prngB with
      _ | lo <;> rw [hloop] at hres
    · exact Option.noConfusion hres
    cases lo with
    | aborted p =>
      dsimp only at hres
      injection hres with hres
      injection hres with h1 h2
      exact absurd h1.symm hr
    | done grid p =>
      dsimp only at hres
      rcases hbw : mazelib_blockwise_expand w h grid out with _ | ⟨res, out2⟩ <;>
        rw [hbw] at hres
      · exact Option.noConfusion hres
      dsimp only at hres
      injection hres with hres
      injection hres with h1 h2
      injection h2 with h2a h2b
      have hc0lt : mazelib_get_cell_index (rx % M32) (ry % M32) h %
          256 ^ mazelib_get_cell_bytes_required_for_dimensions w h < w * h := by
        have hrxw : rx < w := mazelib_nir_lt hrx
        have hryh : ry < h := mazelib_nir_lt hry
        have hxm : rx % M32 = rx := Nat.mod_eq_of_lt (lt_trans hrxw hw32)
        have hym : ry % M32 = ry := Nat.mod_eq_of_lt (lt_trans hryh hh32)
        calc mazelib_get_cell_index (rx % M32) (ry % M32) h %
              256 ^ mazelib_get_cell_bytes_required_for_dimensions w h
            ≤ mazelib_get_cell_index (rx % M32) (ry % M32) h := Nat.mod_le _ _
          _ < w * h := by
              rw [hxm, hym]
              exact cell_index_lt hrxw hryh
      have hinv0 : mazelib_inv w h (List.replicate (w * h) 0)
          [mazelib_get_cell_index (rx % M32) (ry % M32) h %
            256 ^ mazelib_get_cell_bytes_required_for_dimensions w h] :=
        Or.inl ⟨rfl, Or.inl ⟨_, hc0lt, rfl⟩⟩
      have hfin := mazelib_loop_done_inv hw hh hw32 hh32 rfl hinv0 hloop
      have hspan := inv_empty_spanning hw hh hfin
      obtain ⟨hN, h01, hborder, hinterior, hcount⟩ := blockwise_expand_spec hw hh
        hw31 hh31 hspan.2.2.1 hspan.2.2.2.1 hbw
      subst hN
      exact ⟨h1.symm, out2, h2b.symm, h01, hborder, hinterior, hcount⟩

theorem C3_blockwise_well_formed_witness :
    (25 : Nat) = (2 * 2 + 1) * (2 * 2 + 1) ∧
    ∃ wall, (some [1, 1, 1, 1, 1, 1, 0, 0, 0, 1, 1, 0, 1, 1, 1, 1, 0, 0, 0, 1, 1, 1,
        1, 1, 1, 0, 0, 0, 0] : Option (List Nat)) = some wall ∧
      (∀ j, j < (2 * 2 + 1) * (2 * 2 + 1) → wall.getD j 0 = 0 ∨ wall.getD j 0 = 1) ∧
      (∀ nx ny, nx < 2 * 2 + 1 → ny < 2 * 2 + 1 →
        (nx = 0 ∨ nx = 2 * 2 ∨ ny = 0 ∨ ny = 2 * 2) →
        wall.getD (nx * (2 * 2 + 1) + ny) 0 = 1) ∧
      (∀ x y, x < 2 → y < 2 →
        wall.getD ((2 * x + 1) * (2 * 2 + 1) + (2 * y + 1)) 0 = 0) ∧
      ((Finset.range ((2 * 2 + 1) * (2 * 2 + 1))).filter
          (fun j => wall.getD j 0 = 0)).card = 2 * 2 + (2 * 2 - 1) :=
  C3_blockwise_well_formed (by decide) (by decide) (by decide) (by decide)
    (show mazelib_generate_extended 2 2 (some (mazelib_prng_seed 1))
        (some (fun c p => some (c - 1, p))) true (some (List.replicate 29 0)) 100
      = some (25, some ⟨4595616120159276283, 16222085205729898607,
          2530949624332310186, 13987733838590140662⟩,
          some [1, 1, 1, 1, 1, 1, 0, 0, 0, 1, 1, 0, 1, 1, 1, 1, 0, 0, 0, 1, 1, 1,
            1, 1, 1, 0, 0, 0, 0]) by decide)
    (by decide)

/-- With the always-out-of-range selection strategy the main loop never runs
to completion on a grid of two or more cells: the first iteration never
consults the strategy and always carves, and the second consultation
violates the contract and aborts. -/
theorem loop_always_count_no_done {w h B : Nat}
    (hw32 : w < M32) (hh : 1 ≤ h) (hh32 : h < M32) (hwh : 2 ≤ w * h)
    {t : Nat} (ht : t < w * h) {prng : mazelib_prng} {fuel : Nat}
    {g : List Nat} {p : mazelib_prng}
    (hloop : mazelib_loop w h B (fun count p2 => some (count, p2)) fuel
      (List.replicate (w * h) 0) [t] prng = some (.done g p)) : False := by
  cases fuel with
  | zero => exact Option.noConfusion hloop
  | succ n =>
    unfold mazelib_loop at hloop
    rw [if_neg (by simp)] at hloop
    rcases step_fresh_carves hw32 hh hh32 hwh ht with hstep | ⟨g1, m, p1, hstep⟩
    · rw [hstep] at hloop
      exact Option.noConfusion hloop
    · rw [hstep] at hloop
      dsimp only at hloop
      cases n with
      | zero => exact Option.noConfusion hloop
      | succ k =>
        unfold mazelib_loop at hloop
        rw [if_neg (by simp)] at hloop
        rw [mazelib_step_eq] at hloop
        simp at hloop

/-- The start cell drawn by `mazelib_generate_extended` is in range after the
frontier-entry truncation. -/
theorem start_cell_lt {w h : Nat} (hw32 : w < M32) (hh32 : h < M32)
    {rx ry : Nat} (hrx : rx < w) (hry : ry < h) :
    mazelib_get_cell_index (rx % M32) (ry % M32) h %
      256 ^ mazelib_get_cell_bytes_required_for_dimensions w h < w * h := by
  have hxm : rx % M32 = rx := Nat.mod_eq_of_lt (lt_trans hrx hw32)
  have hym : ry % M32 = ry := Nat.mod_eq_of_lt (lt_trans hry hh32)
  calc mazelib_get_cell_index (rx % M32) (ry % M32) h %
        256 ^ mazelib_get_cell_bytes_required_for_dimensions w h
      ≤ mazelib_get_cell_index (rx % M32) (ry % M32) h := Nat.mod_le _ _
    _ < w * h := by
        rw [hxm, hym]
        exact cell_index_lt hrx hry

/-- C8 (amended): a selection strategy that always returns `count` violates
the contract on its first consultation, so `mazelib_generate_extended`
returns 0 for every grid of at least two cells in either output format; the
callback is only consulted when the frontier holds more than one entry, so
the 1×1 maze never consults it and returns 1 instead. -/
theorem C8_out_of_range_aborts {w h : Nat} (hw : 1 ≤ w) (hh : 1 ≤ h)
    (hw32 : w < M32) (hh32 : h < M32) (hwh : 2 ≤ w * h) {bw : Bool}
    {prng : mazelib_prng} {out : List Nat} {fuel r : Nat}
    {p2 : Option mazelib_prng} {gOpt : Option (List Nat)}
    (hres : mazelib_generate_extended w h (some prng)
        (some (fun count p => some (count, p))) bw (some out) fuel
      = some (r, p2, gOpt)) :
    r = 0 := by
  cases bw with
  | false =>
    rw [mazelib_generate_extended_eq] at hres
    by_cases hlen : out.length < mazelib_get_required_buffer_size w h false
    · rw [if_pos hlen] at hres
      injection hres with hres
      injection hres with h1 h2
      exact h1.symm
    · rw [if_neg hlen] at hres
      rcases hrx : mazelib_prng_next_in_range prng w fuel with _ | ⟨rx, prngA⟩ <;>
        rw [hrx] at hres <;> dsimp only at hres
      · exact Option.noConfusion hres
      rcases hry : mazelib_prng_next_in_range prngA h fuel with _ | ⟨ry, prngB⟩ <;>
        rw [hry] at hres <;> dsimp only at hres
      · exact Option.noConfusion hres
      rcases hloop : mazelib_loop w h (mazelib_get_cell_bytes_required_for_dimensions w h)
          (fun count p => some (count, p)) fuel (List.replicate (w * h) 0)
          [mazelib_get_cell_index (rx % M32) (ry % M32) h %
            256 ^ mazelib_get_cell_bytes_required_for_dimensions w h] prngB with
        _ | lo <;> rw [hloop] at hres
      · exact Option.noConfusion hres
      cases lo with
      | aborted p =>
        dsimp only at hres
        injection hres with hres
        injection hres with h1 h2
        exact h1.symm
      | done grid p =>
        exact absurd hloop (fun hl => loop_always_count_no_done hw32 hh hh32 hwh
          (start_cell_lt hw32 hh32 (mazelib_nir_lt hrx) (mazelib_nir_lt hry)) hl)
  | true =>
    rw [mazelib_generate_extended_blockwise_eq] at hres
    by_cases hlen : out.length < mazelib_get_required_buffer_size w h true
    · rw [if_pos hlen] at hres
      injection hres with hres
      injection hres with h1 h2
      exact h1.symm
    · rw [if_neg hlen] at hres
      rcases hrx : mazelib_prng_next_in_range prng w fuel with _ | ⟨rx, prngA⟩ <;>
        rw [hrx] at hres <;> dsimp only at hres
      · exact Option.noConfusion hres
      rcases hry : mazelib_prng_next_in_range prngA h fuel with _ | ⟨ry, prngB⟩ <;>
        rw [hry] at hres <;> dsimp only at hres
      · exact Option.noConfusion hres
      rcases hloop : mazelib_loop w h (mazelib_get_cell_bytes_required_for_dimensions w h)
          (fun count p => some (count, p)) fuel (List.replicate (w * h) 0)
          [mazelib_get_cell_index (rx % M32) (ry % M32) h %
            256 ^ mazelib_get_cell_bytes_required_for_dimensions w h] prngB with
        _ | lo <;> rw [hloop] at hres
      · exact Option.noConfusion hres
      cases lo with
      | aborted p =>
        dsimp only at hres
        injection hres with hres
        injection hres with h1 h2
        exact h1.symm
      | done grid p =>
        exact absurd hloop (fun hl => loop_always_count_no_done hw32 hh hh32 hwh
          (start_cell_lt hw32 hh32 (mazelib_nir_lt hrx) (mazelib_nir_lt hry)) hl)

theorem C8_out_of_range_aborts_witness :
    (mazelib_generate_extended 2 1 (some (mazelib_prng_seed 0))
        (some (fun count p => some (count, p))) false (some (List.replicate 4 0)) 100
      = some (0, some ⟨7836616895581041836, 18289817841045631201, 14378738937188272626,
          10876364233727353416⟩, some [0, 0, 0, 0]) ∧ (0 : Nat) = 0) ∧
    (mazelib_generate_extended 2 1 (some (mazelib_prng_seed 0))
        (some (fun count p => some (count, p))) true (some (List.replicate 17 0)) 100
      = some (0, some ⟨7836616895581041836, 18289817841045631201, 14378738937188272626,
          10876364233727353416⟩, some (List.replicate 17 0)) ∧ (0 : Nat) = 0) :=
  have hres : mazelib_generate_extended 2 1 (some (mazelib_prng_seed 0))
      (some (fun count p => some (count, p))) false (some (List.replicate 4 0)) 100
    = some (0, some ⟨7836616895581041836, 18289817841045631201, 14378738937188272626,
        10876364233727353416⟩, some [0, 0, 0, 0]) := by decide
  have hresB : mazelib_generate_extended 2 1 (some (mazelib_prng_seed 0))
      (some (fun count p => some (count, p))) true (some (List.replicate 17 0)) 100
    = some (0, some ⟨7836616895581041836, 18289817841045631201, 14378738937188272626,
        10876364233727353416⟩, some (List.replicate 17 0)) := by decide
  ⟨⟨hres, C8_out_of_range_aborts (by decide) (by decide) (by decide) (by decide)
      (by decide) hres⟩,
   ⟨hresB, C8_out_of_range_aborts (by decide) (by decide) (by decide) (by decide)
      (by decide) hresB⟩⟩
